import Mathlib

/-!
# Movesia indexing & reconciliation core — verification development

Shallow embedding of the indexing/reconciliation subsystem of the Movesia
repository (TypeScript), together with theorems settling the frozen claims.

Conventions:
* JavaScript 32-bit integer wrap-around is modelled on `Nat`/`Int` with
  explicit `% 2^32`; the one place the source multiplies 32-bit values with
  the plain JS `*` operator (an IEEE-754 double multiplication) is modelled
  exactly, by rounding the exact integer product to 53 bits of precision
  (round to nearest, ties to even) before truncating to 32 bits.
* JS strings are modelled as Lean `String`; `charCodeAt` enumerates UTF-16
  code units, `Buffer`/hashing sees UTF-8 bytes.
* SQLite tables are modelled as Lean lists of rows; `guid` primary-key
  semantics are first-match lookups (all catalogs built by the code keep
  guids unique).
-/

set_option maxRecDepth 4000

namespace Movesia

/-! ## JS string and number primitives -/

/-- The sixteen lowercase hex digits, as produced by JS `Number.prototype.toString(16)`. -/
def digitChar : Nat → Char
  | 0 => '0' | 1 => '1' | 2 => '2' | 3 => '3' | 4 => '4'
  | 5 => '5' | 6 => '6' | 7 => '7' | 8 => '8' | 9 => '9'
  | 10 => 'a' | 11 => 'b' | 12 => 'c' | 13 => 'd' | 14 => 'e' | 15 => 'f'
  | _ => '0'

/-- Digits of `n` in base `b` (little-endian), structurally recursive on a
fuel bound; `n` itself always suffices as fuel because `n / b < n`. -/
def natDigitsRevGo (b : Nat) : Nat → Nat → List Char
  | 0, n => [digitChar n]
  | fuel + 1, n =>
    if n < b ∨ b ≤ 1 then [digitChar n]
    else digitChar (n % b) :: natDigitsRevGo b fuel (n / b)

/-- Digits of `n` in base `b` (little-endian); `b` is 10 or 16 here. -/
def natDigitsRev (b : Nat) (n : Nat) : List Char := natDigitsRevGo b n n

/-- JS `n.toString(16)` for a nonnegative integer `n` (lowercase, no padding). -/
def natToHex (n : Nat) : String := String.mk (natDigitsRev 16 n).reverse

/-- JS decimal rendering of a nonnegative integer (template-literal interpolation). -/
def natToDec (n : Nat) : String := String.mk (natDigitsRev 10 n).reverse

/-- Decimal rendering of a (possibly negative) integer, as SQLite `printf('%d', ·)`. -/
def intToDec (i : Int) : String :=
  if i < 0 then "-" ++ natToDec i.natAbs else natToDec i.natAbs

/-- JS `text.split(/\r?\n/)` over a character list: a separator is either the
two-character sequence CR LF or a lone LF; a lone CR is not a separator. -/
def splitLinesAux : List Char → List Char → List (List Char)
  | [], acc => [acc.reverse]
  | '\r' :: '\n' :: rest, acc => acc.reverse :: splitLinesAux rest []
  | '\n' :: rest, acc => acc.reverse :: splitLinesAux rest []
  | c :: rest, acc => splitLinesAux rest (c :: acc)

/-- JS `text.split(/\r?\n/)`. -/
def splitLines (s : String) : List String :=
  (splitLinesAux s.data []).map String.mk

/-- UTF-16 code units of one scalar value, as JS `charCodeAt` enumerates them. -/
def utf16UnitsOfChar (c : Char) : List Nat :=
  let n := c.toNat
  if n < 0x10000 then [n]
  else [0xD800 + (n - 0x10000) / 0x400, 0xDC00 + (n - 0x10000) % 0x400]

/-- UTF-16 code units of a string (the JS view of a string's characters). -/
def utf16Units (s : String) : List Nat :=
  (s.data.map utf16UnitsOfChar).flatten

/-- UTF-8 bytes of one scalar value. -/
def utf8BytesOfChar (c : Char) : List Nat :=
  let n := c.toNat
  if n < 0x80 then [n]
  else if n < 0x800 then [0xC0 + n / 0x40, 0x80 + n % 0x40]
  else if n < 0x10000 then [0xE0 + n / 0x1000, 0x80 + (n / 0x40) % 0x40, 0x80 + n % 0x40]
  else [0xF0 + n / 0x40000, 0x80 + (n / 0x1000) % 0x40, 0x80 + (n / 0x40) % 0x40, 0x80 + n % 0x40]

/-- UTF-8 bytes of a string (what `Buffer.from(s, "utf8")` / `hash.update(s)` see). -/
def utf8Bytes (s : String) : List Nat :=
  (s.data.map utf8BytesOfChar).flatten

/-- Binary length of `n` (structurally recursive on a fuel bound, so the
kernel can evaluate it; fuel `n` suffices because `n / 2 < n`). -/
def bitLenGo : Nat → Nat → Nat
  | 0, _ => 0
  | fuel + 1, n => if n = 0 then 0 else bitLenGo fuel (n / 2) + 1

/-- Binary length of `n`: 0 for 0, otherwise `⌊log2 n⌋ + 1`. -/
def bitLen (n : Nat) : Nat := bitLenGo n n

/-- Round a nonnegative integer to the nearest IEEE-754 double
(53-bit significand, round to nearest, ties to even), returned as an integer.
Exact below `2^53`. -/
def roundToDouble (p : Nat) : Nat :=
  if p < 2 ^ 53 then p
  else
    let k := bitLen p - 53
    let u := 2 ^ k
    let q := p / u
    let r := p % u
    let q' := if u / 2 < r ∨ (r = u / 2 ∧ q % 2 = 1) then q + 1 else q
    q' * u

/-- One step of the chunk fingerprint in `Indexer.chunkText` / `hashString`:
`hash = (hash ^ c) * 16777619 >>> 0` with JS semantics.  The xor produces a
signed 32-bit value, the multiplication is an IEEE double multiplication
(rounded to 53 bits), and `>>> 0` is `ToUint32`. -/
def fnvStepJs (h c : Nat) : Nat :=
  let x : Nat := (h ^^^ c) % 2 ^ 32
  let xi : Int := if x < 2 ^ 31 then (x : Int) else (x : Int) - 2 ^ 32
  let p : Int := xi * 16777619
  let pr : Int :=
    if 0 ≤ p then (roundToDouble p.toNat : Int) else -(roundToDouble (-p).toNat : Int)
  (pr % 2 ^ 32).toNat

/-- The chunk fingerprint of the source (`Indexer.chunkText`, `hashString` in
`chunker.ts`): JS-double FNV-1a-style recurrence over UTF-16 code units,
seed `2166136261`, multiplier `16777619`. -/
def fnv1aJs (s : String) : Nat :=
  (utf16Units s).foldl fnvStepJs 2166136261

/-- Modelled from the spec: exact 32-bit FNV-1a over the code units, seed
`2166136261`, multiplier `16777619`, all arithmetic mod `2^32`.  This is the
fingerprint the spec's words describe; it is compared against `fnv1aJs`,
the one the source computes. -/
def fnv1aExact (s : String) : Nat :=
  (utf16Units s).foldl (fun h c => (((h ^^^ c) % 2 ^ 32) * 16777619) % 2 ^ 32) 2166136261

/-! ## Hash primitives (SHA-1 for UUID v5, SHA-256 for snapshots)

Modelled from the spec: the repository calls the external `uuid` npm package
(`v5`, RFC 4122: SHA-1 over namespace bytes followed by the UTF-8 name, with
version/variant bits forced) and Node's `crypto.createHash` for SHA-256.
Neither library is part of the repository, so both algorithms are embedded
here from their public specifications, executable over byte lists. -/

/-- Truncate to a 32-bit word. -/
def w32 (n : Nat) : Nat := n % 2 ^ 32

/-- Rotate a 32-bit word left by `k`. -/
def rotl32 (k x : Nat) : Nat := ((x <<< k) % 2 ^ 32) ||| ((x % 2 ^ 32) >>> (32 - k))

/-- Rotate a 32-bit word right by `k`. -/
def rotr32 (k x : Nat) : Nat := ((x % 2 ^ 32) >>> k) ||| ((x <<< (32 - k)) % 2 ^ 32)

/-- `k` big-endian bytes of `n`. -/
def beBytes (k n : Nat) : List Nat :=
  (List.range k).map (fun i => n / 2 ^ (8 * (k - 1 - i)) % 256)

/-- Merkle–Damgård padding shared by SHA-1 and SHA-256: append `0x80`, zero
bytes up to 56 mod 64, then the 64-bit big-endian bit length. -/
def mdPad (msg : List Nat) : List Nat :=
  msg ++ [0x80] ++ List.replicate ((119 - msg.length % 64) % 64) 0 ++ beBytes 8 (msg.length * 8)

/-- Group bytes into big-endian 32-bit words. -/
def bytesToWordsBE : List Nat → List Nat
  | b0 :: b1 :: b2 :: b3 :: rest =>
      (b0 * 2 ^ 24 + b1 * 2 ^ 16 + b2 * 2 ^ 8 + b3) :: bytesToWordsBE rest
  | _ => []

/-- Split a byte list into 64-byte blocks. -/
def chunks64 (l : List Nat) : List (List Nat) :=
  if l.isEmpty then [] else l.take 64 :: chunks64 (l.drop 64)
termination_by l.length
decreasing_by
  rename_i hne
  simp only [List.isEmpty_iff] at hne
  have hlen : 0 < l.length := List.length_pos.mpr hne
  simp only [List.length_drop]
  omega

/-- SHA-1 round function. -/
def sha1F (t b c d : Nat) : Nat :=
  if t < 20 then (b &&& c) ||| ((b ^^^ 0xFFFFFFFF) &&& d)
  else if t < 40 then b ^^^ c ^^^ d
  else if t < 60 then (b &&& c) ||| (b &&& d) ||| (c &&& d)
  else b ^^^ c ^^^ d

/-- SHA-1 round constants. -/
def sha1K (t : Nat) : Nat :=
  if t < 20 then 0x5A827999 else if t < 40 then 0x6ED9EBA1
  else if t < 60 then 0x8F1BBCDC else 0xCA62C1D6

/-- Append one extended word to a SHA-1 message schedule. -/
def sha1ExtendStep (ws : List Nat) : List Nat :=
  let n := ws.length
  ws ++ [rotl32 1 (ws.getD (n - 3) 0 ^^^ ws.getD (n - 8) 0 ^^^ ws.getD (n - 14) 0 ^^^ ws.getD (n - 16) 0)]

/-- Extend 16 schedule words to 80. -/
def sha1Extend (ws : List Nat) : List Nat :=
  (List.range 64).foldl (fun acc _ => sha1ExtendStep acc) ws

/-- One SHA-1 round over state `(a, b, c, d, e)`. -/
def sha1Round (ws : List Nat) (st : Nat × Nat × Nat × Nat × Nat) (t : Nat) :
    Nat × Nat × Nat × Nat × Nat :=
  let (a, b, c, d, e) := st
  (w32 (rotl32 5 a + sha1F t b c d + e + sha1K t + ws.getD t 0), a, rotl32 30 b, c, d)

/-- Compress one 64-byte block into the SHA-1 state. -/
def sha1Chunk (h : List Nat) (chunk : List Nat) : List Nat :=
  let ws := sha1Extend (bytesToWordsBE chunk)
  let (a, b, c, d, e) :=
    (List.range 80).foldl (sha1Round ws) (h.getD 0 0, h.getD 1 0, h.getD 2 0, h.getD 3 0, h.getD 4 0)
  [w32 (h.getD 0 0 + a), w32 (h.getD 1 0 + b), w32 (h.getD 2 0 + c),
   w32 (h.getD 3 0 + d), w32 (h.getD 4 0 + e)]

/-- SHA-1 digest (20 bytes) of a byte list. -/
def sha1 (msg : List Nat) : List Nat :=
  let hs := (chunks64 (mdPad msg)).foldl sha1Chunk
    [1732584193, 4023233417, 2562383102, 271733878, 3285377520]
  (hs.map (beBytes 4)).flatten

/-- SHA-256 round constants. -/
def sha256K : List Nat :=
  [1116352408, 1899447441, 3049323471, 3921009573, 961987163, 1508970993,
   2453635748, 2870763221, 3624381080, 310598401, 607225278, 1426881987,
   1925078388, 2162078206, 2614888103, 3248222580, 3835390401, 4022224774,
   264347078, 604807628, 770255983, 1249150122, 1555081692, 1996064986,
   2554220882, 2821834349, 2952996808, 3210313671, 3336571891, 3584528711,
   113926993, 338241895, 666307205, 773529912, 1294757372, 1396182291,
   1695183700, 1986661051, 2177026350, 2456956037, 2730485921, 2820302411,
   3259730800, 3345764771, 3516065817, 3600352804, 4094571909, 275423344,
   430227734, 506948616, 659060556, 883997877, 958139571, 1322822218,
   1537002063, 1747873779, 1955562222, 2024104815, 2227730452, 2361852424,
   2428436474, 2756734187, 3204031479, 3329325298]

/-- Append one extended word to a SHA-256 message schedule. -/
def sha256ExtendStep (ws : List Nat) : List Nat :=
  let n := ws.length
  let w15 := ws.getD (n - 15) 0
  let w2 := ws.getD (n - 2) 0
  let s0 := rotr32 7 w15 ^^^ rotr32 18 w15 ^^^ (w15 >>> 3)
  let s1 := rotr32 17 w2 ^^^ rotr32 19 w2 ^^^ (w2 >>> 10)
  ws ++ [w32 (ws.getD (n - 16) 0 + s0 + ws.getD (n - 7) 0 + s1)]

/-- Extend 16 schedule words to 64. -/
def sha256Extend (ws : List Nat) : List Nat :=
  (List.range 48).foldl (fun acc _ => sha256ExtendStep acc) ws

/-- One SHA-256 round. -/
def sha256Round (ws : List Nat) (st : List Nat) (t : Nat) : List Nat :=
  let a := st.getD 0 0
  let b := st.getD 1 0
  let c := st.getD 2 0
  let d := st.getD 3 0
  let e := st.getD 4 0
  let f := st.getD 5 0
  let g := st.getD 6 0
  let hh := st.getD 7 0
  let S1 := rotr32 6 e ^^^ rotr32 11 e ^^^ rotr32 25 e
  let ch := (e &&& f) ^^^ ((e ^^^ 0xFFFFFFFF) &&& g)
  let temp1 := w32 (hh + S1 + ch + sha256K.getD t 0 + ws.getD t 0)
  let S0 := rotr32 2 a ^^^ rotr32 13 a ^^^ rotr32 22 a
  let maj := (a &&& b) ^^^ (a &&& c) ^^^ (b &&& c)
  let temp2 := w32 (S0 + maj)
  [w32 (temp1 + temp2), a, b, c, w32 (d + temp1), e, f, g]

/-- Compress one 64-byte block into the SHA-256 state. -/
def sha256Chunk (h : List Nat) (chunk : List Nat) : List Nat :=
  let ws := sha256Extend (bytesToWordsBE chunk)
  let st := (List.range 64).foldl (sha256Round ws) h
  (List.range 8).map (fun i => w32 (h.getD i 0 + st.getD i 0))

/-- SHA-256 digest (32 bytes) of a byte list. -/
def sha256 (msg : List Nat) : List Nat :=
  let hs := (chunks64 (mdPad msg)).foldl sha256Chunk
    [1779033703, 3144134277, 1013904242, 2773480762,
     1359893119, 2600822924, 528734635, 1541459225]
  (hs.map (beBytes 4)).flatten

/-- Two lowercase hex digits of a byte. -/
def byteHex2 (b : Nat) : String := String.mk [digitChar (b / 16 % 16), digitChar (b % 16)]

/-- Lowercase hex of a byte list. -/
def bytesToHex (bs : List Nat) : String := String.join (bs.map byteHex2)

/-- `crypto.createHash('sha256')` digest in hex over the UTF-8 bytes of `s`. -/
def sha256Hex (s : String) : String := bytesToHex (sha256 (utf8Bytes s))

/-! ## Point identity (`ids.ts`) -/

/-- The fixed namespace UUID `6c3a1e19-bf4a-4a18-8f6b-8e1ddc3d1a1e`
(`MOVESIA_NS` in `ids.ts`) as bytes. -/
def movesiaNsBytes : List Nat :=
  [0x6c, 0x3a, 0x1e, 0x19, 0xbf, 0x4a, 0x4a, 0x18,
   0x8f, 0x6b, 0x8e, 0x1d, 0xdc, 0x3d, 0x1a, 0x1e]

/-- Modelled from the spec: RFC 4122 UUID v5 bytes — SHA-1 of namespace bytes
followed by name bytes, truncated to 16 bytes, with the version nibble forced
to 5 and the variant bits to `10`. -/
def uuidv5Bytes (ns name : List Nat) : List Nat :=
  let h := (sha1 (ns ++ name)).take 16
  (h.set 6 (h.getD 6 0 % 16 + 0x50)).set 8 (h.getD 8 0 % 64 + 0x80)

/-- Standard 8-4-4-4-12 lowercase UUID rendering. -/
def formatUuid (bs : List Nat) : String :=
  bytesToHex (bs.take 4) ++ "-" ++ bytesToHex ((bs.drop 4).take 2) ++ "-" ++
  bytesToHex ((bs.drop 6).take 2) ++ "-" ++ bytesToHex ((bs.drop 8).take 2) ++ "-" ++
  bytesToHex (bs.drop 10)

/-- Modelled from the spec: the `uuid` package's `v5(name, namespace)` over the
UTF-8 bytes of `name`. -/
def uuidv5 (name : String) (ns : List Nat) : String :=
  formatUuid (uuidv5Bytes ns (utf8Bytes name))

/-- `makePointIdFromChunkKey` from `ids.ts`: UUID v5 of the chunk key under the
fixed Movesia namespace. -/
def makePointIdFromChunkKey (chunkKey : String) : String :=
  uuidv5 chunkKey movesiaNsBytes

/-! ## Chunking (`Indexer.chunkText` in `indexer.ts`, `chunkFile` in `chunker.ts`) -/

/-- `normalizeRel` in `indexer.ts` / `norm` in `reconcile.ts`:
`p.replaceAll("\\", "/")`. -/
def normSlash (s : String) : String :=
  String.mk (s.data.map (fun c => if c = '\\' then '/' else c))

/-- One line-window chunk as built by the source. -/
structure ChunkRec where
  id : String
  path : String
  kind : String
  text : String
  line_start : Nat
  line_end : Nat
  hash : String
deriving Repr, DecidableEq, Inhabited

/-- The chunk key of `Indexer.chunkText`:
`<absPath>#<lineStart>-<lineEnd>#<hexFingerprint>`. -/
def chunkKeyOf (absPath : String) (a e : Nat) (hashHex : String) : String :=
  absPath ++ "#" ++ natToDec a ++ "-" ++ natToDec e ++ "#" ++ hashHex

/-- The `while (i < lines.length)` loop of `Indexer.chunkText`: emits the
window `[i, min(i+linesPerChunk, N))`, then advances `i` by
`max(1, linesPerChunk - overlapLines)`; there is no break when the window
end reaches the last line.  The loop recurses on an explicit fuel bound so
the kernel can evaluate it; since the advance is at least 1, fuel
`lines.length` makes it equal to the source's unbounded `while` loop. -/
def chunkTextLoop (lines : List String) (absPath kind : String) (lpc ov : Nat) :
    Nat → Nat → List ChunkRec
  | 0, _ => []
  | fuel + 1, i =>
    if i < lines.length then
      let e := min (i + lpc) lines.length
      let ctext := String.intercalate "\n" ((lines.drop i).take (e - i))
      let hx := natToHex (fnv1aJs ctext)
      { id := makePointIdFromChunkKey (chunkKeyOf absPath (i + 1) e hx),
        path := absPath, kind := kind, text := ctext,
        line_start := i + 1, line_end := e, hash := hx } ::
        chunkTextLoop lines absPath kind lpc ov fuel (i + max 1 (lpc - ov))
    else []

/-- `Indexer.chunkText(text, absPath, kind, targetTokens, overlapLines)`:
split on `\r?\n`, `linesPerChunk = max(30, ⌊targetTokens/4⌋)`, then the loop. -/
def chunkText (text absPath kind : String) (targetTokens : Nat := 500)
    (overlapLines : Nat := 20) : List ChunkRec :=
  let lines := splitLines text
  let linesPerChunk := max 30 (targetTokens / 4)
  chunkTextLoop lines absPath kind linesPerChunk overlapLines lines.length 0

/-- The loop of `chunkFile` in `chunker.ts`: same windows, but it breaks as
soon as `end >= lines.length`, and advances by `max(end - overlapLines,
start + 1)`.  The `path` field is the separator-normalized absolute path.
Fuel as in `chunkTextLoop`. -/
def chunkFileLoop (lines : List String) (absPath kind : String) (lpc ov : Nat) :
    Nat → Nat → List ChunkRec
  | 0, _ => []
  | fuel + 1, i =>
    if i < lines.length then
      let e := min lines.length (i + lpc)
      let ctext := String.intercalate "\n" ((lines.drop i).take (e - i))
      let hx := natToHex (fnv1aJs ctext)
      let c : ChunkRec :=
        { id := absPath ++ "#L" ++ natToDec (i + 1) ++ "-" ++ natToDec e ++ "#" ++ hx,
          path := normSlash absPath, kind := kind, text := ctext,
          line_start := i + 1, line_end := e, hash := hx }
      if lines.length ≤ e then [c]
      else c :: chunkFileLoop lines absPath kind lpc ov fuel (max (e - ov) (i + 1))
    else []

/-- `chunkFile(absPath, kind, targetTokens, overlapLines)` of `chunker.ts`,
with the file contents passed in place of the filesystem read. -/
def chunkFile (text absPath kind : String) (targetTokens : Nat := 500)
    (overlapLines : Nat := 20) : List ChunkRec :=
  let lines := splitLines text
  let linesPerChunk := max 30 (targetTokens / 4)
  chunkFileLoop lines absPath kind linesPerChunk overlapLines lines.length 0

/-- Modelled from the spec: the window sequence the claim describes — emit
`[i, min(i+linesPerChunk, N))` as 1-based inclusive line numbers, advance the
start by `max(1, step)`, and stop as soon as a window's end reaches the last
line.  Same fuel convention as the loops it is compared with. -/
def specWindows (N lpc step : Nat) : Nat → Nat → List (Nat × Nat)
  | 0, _ => []
  | fuel + 1, i =>
    if i < N then
      let e := min (i + lpc) N
      if N ≤ e then [(i + 1, e)]
      else (i + 1, e) :: specWindows N lpc step fuel (i + max 1 step)
    else []

/-- The window sequence `Indexer.chunkText` actually emits: same windows, but
the loop runs while the window start is below the line count, with no
stop-at-end. -/
def codeWindows (N lpc step : Nat) : Nat → Nat → List (Nat × Nat)
  | 0, _ => []
  | fuel + 1, i =>
    if i < N then (i + 1, min (i + lpc) N) :: codeWindows N lpc step fuel (i + max 1 step)
    else []

/-- `String.endsWith`, over the character lists (the library's byte-position
implementation is semantically identical but does not evaluate inside the
kernel). -/
def strEndsWith (s t : String) : Bool := List.isPrefixOf t.data.reverse s.data.reverse

/-- `String.startsWith`, over the character lists. -/
def strStartsWith (s t : String) : Bool := List.isPrefixOf t.data s.data

/-! ## Catalog store (`memory/sqlite.ts`)

The `assets`, `asset_deps` and `scenes` tables are modelled as row lists;
`guid` is the primary key, so lookups are first-match (all catalogs the code
builds keep guids unique, which theorems take as a hypothesis where needed).
The append-only `events` table and the `index_state` table are not consulted
by any claim and are left out of the state. -/

/-- A row of the `assets` table. -/
structure AssetRow where
  guid : String
  path : String
  kind : Option String
  mtime : Option Int
  size : Option Int
  hash : Option String
  deleted : Bool
  updated_ts : Int
deriving Repr, DecidableEq

/-- A row of the `scenes` table. -/
structure SceneRow where
  guid : String
  path : String
  updated_ts : Int
deriving Repr, DecidableEq

/-- The catalog database state. -/
structure Db where
  assets : List AssetRow
  assetDeps : List (String × String)
  scenes : List SceneRow
deriving Repr, DecidableEq

/-- The empty catalog. -/
def Db.empty : Db := ⟨[], [], []⟩

/-- First-match lookup by guid (primary-key semantics). -/
def lookupAsset (assets : List AssetRow) (g : String) : Option AssetRow :=
  assets.find? (fun r => r.guid = g)

/-- An input row of `upsertAssets`; every field the source reads, each
optional exactly where the JS value can be `null`/`undefined`/absent
(a non-string `path` is modelled as `none`). -/
structure UpsertItem where
  guid : Option String := none
  GUID : Option String := none
  id : Option String := none
  path : Option String := none
  kind : Option String := none
  mtime : Option Int := none
  size : Option Int := none
  hash : Option String := none
  sha256 : Option String := none
  deps : List String := []
deriving Repr, DecidableEq

/-- `it.guid ?? it.GUID ?? it.id`. -/
def coerceGuid (it : UpsertItem) : Option String := it.guid <|> it.GUID <|> it.id

/-- `typeof it.path === "string" ? it.path : "(unknown)"`. -/
def coercePath (it : UpsertItem) : String := it.path.getD "(unknown)"

/-- `typeof it.sha256 === "string" ? it.sha256 : (typeof it.hash === "string" ? it.hash : null)`. -/
def coerceHash (it : UpsertItem) : Option String := it.sha256 <|> it.hash

/-- `INSERT ... ON CONFLICT(guid) DO UPDATE` semantics for one coerced row:
`path` is overwritten unconditionally, `kind`/`mtime`/`size`/`hash` only when
the incoming value is non-null (`COALESCE(excluded.x, assets.x)`),
`deleted` is reset to 0 and `updated_ts` set to `ts`. -/
def upsertMerge (old : AssetRow) (p : String) (k : Option String) (mt sz : Option Int)
    (h : Option String) (ts : Int) : AssetRow :=
  { guid := old.guid, path := p, kind := k <|> old.kind, mtime := mt <|> old.mtime,
    size := sz <|> old.size, hash := h <|> old.hash, deleted := false, updated_ts := ts }

/-- `INSERT OR IGNORE INTO asset_deps(guid, dep)` for `deps.slice(0, 200)`. -/
def insertDeps (tbl : List (String × String)) (g : String) (deps : List String) :
    List (String × String) :=
  (deps.take 200).foldl (fun t d => if (g, d) ∈ t then t else t ++ [(g, d)]) tbl

/-- One iteration of the `upsertAssets` transaction body: coerce the row, skip
it when the coerced guid is missing/falsy or the coerced path is falsy,
otherwise upsert the asset row and insert up to 200 dependency rows. -/
def upsertAssetsOne (db : Db) (it : UpsertItem) (ts : Int) : Db :=
  match coerceGuid it with
  | none => db
  | some g =>
    let p := coercePath it
    if g = "" ∨ p = "" then db
    else
      let assets' :=
        if (db.assets.any (fun r => r.guid = g)) then
          db.assets.map (fun r =>
            if r.guid = g then upsertMerge r p it.kind it.mtime it.size (coerceHash it) ts else r)
        else
          db.assets ++ [{ guid := g, path := p, kind := it.kind, mtime := it.mtime,
                          size := it.size, hash := coerceHash it, deleted := false,
                          updated_ts := ts }]
      { db with assets := assets', assetDeps := insertDeps db.assetDeps g it.deps }

/-- `upsertAssets(db, items, ts)`: the single transaction over all rows. -/
def upsertAssets (db : Db) (items : List UpsertItem) (ts : Int) : Db :=
  items.foldl (fun d it => upsertAssetsOne d it ts) db

/-- `markDeleted(db, items, ts)`: `UPDATE assets SET deleted=1, updated_ts=ts
WHERE guid=?` per item. -/
def markDeleted (db : Db) (guids : List String) (ts : Int) : Db :=
  guids.foldl
    (fun d g =>
      { d with assets := d.assets.map (fun r =>
          if r.guid = g then { r with deleted := true, updated_ts := ts } else r) })
    db

/-- `upsertScene(db, {guid, path, ts})`. -/
def upsertScene (db : Db) (g p : String) (ts : Int) : Db :=
  if db.scenes.any (fun s => s.guid = g) then
    { db with scenes := db.scenes.map (fun s =>
        if s.guid = g then { s with path := p, updated_ts := ts } else s) }
  else
    { db with scenes := db.scenes ++ [⟨g, p, ts⟩] }

/-! ## Snapshot (`computeSnapshotFromAssets` in the live `indexer.ts`) -/

/-- `COALESCE(hash, printf('%d:%d', COALESCE(mtime,0), COALESCE(size,0)))`. -/
def snapshotVer (r : AssetRow) : String :=
  match r.hash with
  | some h => h
  | none => intToDec (r.mtime.getD 0) ++ ":" ++ intToDec (r.size.getD 0)

/-- SQLite `ORDER BY guid` compares TEXT by UTF-8 byte memcmp. -/
def bytesLe (a b : List Nat) : Bool :=
  match a, b with
  | [], _ => true
  | _ :: _, [] => false
  | x :: xs, y :: ys => if x < y then true else if y < x then false else bytesLe xs ys

/-- Guid ordering used by `ORDER BY guid`. -/
def guidLe (a b : String) : Bool := bytesLe (utf8Bytes a) (utf8Bytes b)

/-- Insertion sort by a boolean order (used for `ORDER BY guid`). -/
def insertSorted (le : α → α → Bool) (x : α) : List α → List α
  | [] => [x]
  | y :: ys => if le x y then x :: y :: ys else y :: insertSorted le x ys

/-- Sort by a boolean order. -/
def sortByBool (le : α → α → Bool) : List α → List α
  | [] => []
  | x :: xs => insertSorted le x (sortByBool le xs)

/-- The rows of `SELECT guid, ver FROM assets WHERE deleted = 0 ORDER BY guid`. -/
def liveSortedRows (db : Db) : List AssetRow :=
  sortByBool (fun a b => guidLe a.guid b.guid) (db.assets.filter (fun r => !r.deleted))

/-- The live `(guid, version)` pairs, in snapshot order. -/
def livePairs (db : Db) : List (String × String) :=
  (liveSortedRows db).map (fun r => (r.guid, snapshotVer r))

/-- The exact byte string fed to the SHA-256 in `computeSnapshotFromAssets`:
`guid + ':' + ver + '\n'` per live row in guid order. -/
def snapshotInput (db : Db) : String :=
  String.join ((livePairs db).map (fun gv => gv.1 ++ ":" ++ gv.2 ++ "\n"))

/-- `computeSnapshotFromAssets(db)`: the `(sha, total)` snapshot. -/
def computeSnapshotFromAssets (db : Db) : String × Nat :=
  (sha256Hex (snapshotInput db), (liveSortedRows db).length)

/-! ## Reconciler (`src/main/reconcile.ts`)

The catalog effects of `reconcile` are modelled exactly; the vector-store
calls it issues are recorded as path lists (`modDeletes` from the modified
branch, `delDeletes` from the deleted pass, `moveDeletes` from the move
cleanup), and the synthetic reindex events handed to the Indexer are applied
through the live Indexer's catalog effects (`upsertAssets` + `upsertScene`);
the Indexer's file/embedding side effects do not touch the catalog. -/

/-- A manifest item (`ManifestItem` in `reconcile.ts`). -/
structure ManifestItem where
  guid : String
  path : String
  kind : Option String := none
  isFolder : Bool := false
  mtime : Option Int := none
  size : Option Int := none
  hash : Option String := none
deriving Repr, DecidableEq

/-- `isTextual`: `kind == "MonoScript" || kind == "TextAsset" || path.endsWith(".cs")`. -/
def isTextual (k : Option String) (p : String) : Bool :=
  k = some "MonoScript" || k = some "TextAsset" || strEndsWith p ".cs"

/-- `isScene`: `path.endsWith(".unity")`. -/
def isScene (p : String) : Bool := strEndsWith p ".unity"

/-- JS truthiness of a string-or-nullish value. -/
def optTruthy : Option String → Bool
  | none => false
  | some s => s ≠ ""

/-- The `changed` witness of `reconcile.ts`:
`(row.hash && it.hash && row.hash !== it.hash) ||
 (row.hash == null && typeof it.mtime === "number" && row.mtime !== it.mtime)`. -/
def changedWitness (row : AssetRow) (it : ManifestItem) : Bool :=
  (optTruthy row.hash && optTruthy it.hash && row.hash ≠ it.hash) ||
  (row.hash = none && it.mtime.isSome && row.mtime ≠ it.mtime)

/-- Statistics returned by `reconcile`. -/
structure ReconcileStats where
  added : Nat
  deleted : Nat
  moved : Nat
  modified : Nat
deriving Repr, DecidableEq

/-- Accumulators of the classification pass of `reconcile` (arrival order). -/
structure Pass1Out where
  seen : List String
  added : Nat
  moved : Nat
  modified : Nat
  toUpsert : List ManifestItem
  toReindex : List ManifestItem
  toMoved : List (String × String × String × Option String)
  modDeletes : List String
deriving Repr, DecidableEq

/-- The ADDED / MOVED / MODIFIED classification loop of `reconcile`, over the
live snapshot `live` (`SELECT guid, path, hash, mtime FROM assets WHERE
deleted=0`).  Folders are skipped; only the added and moved branches push to
`toUpsert`; the modified branch records an immediate
`deletePointsByPath(norm(it.path))` and reindexes textual/scene items. -/
def pass1 (live : List AssetRow) : List ManifestItem → Pass1Out
  | [] => ⟨[], 0, 0, 0, [], [], [], []⟩
  | it :: rest =>
    let o := pass1 live rest
    if it.isFolder then o
    else
      match lookupAsset live it.guid with
      | none =>
          { o with seen := it.guid :: o.seen, added := o.added + 1,
                   toUpsert := it :: o.toUpsert,
                   toReindex := if isTextual it.kind it.path || isScene it.path
                                then it :: o.toReindex else o.toReindex }
      | some row =>
          if row.path ≠ it.path then
            { o with seen := it.guid :: o.seen, moved := o.moved + 1,
                     toUpsert := it :: o.toUpsert,
                     toMoved := (it.guid, row.path, it.path, it.kind) :: o.toMoved,
                     toReindex := if isTextual it.kind it.path || isScene it.path
                                  then it :: o.toReindex else o.toReindex }
          else if changedWitness row it then
            { o with seen := it.guid :: o.seen, modified := o.modified + 1,
                     modDeletes := normSlash it.path :: o.modDeletes,
                     toReindex := if isTextual it.kind it.path || isScene it.path
                                  then it :: o.toReindex else o.toReindex }
          else
            { o with seen := it.guid :: o.seen }

/-- The `upsertAssets` row `reconcile` builds from a manifest item
(`{guid, path, kind, mtime, size, hash}`). -/
def manifestToUpsert (it : ManifestItem) : UpsertItem :=
  { guid := some it.guid, path := some it.path, kind := it.kind,
    mtime := it.mtime, size := it.size, hash := it.hash }

/-- Catalog effects of the live Indexer's `assets_imported` handler on a
reconcile-made batch: `upsertAssets` on the normalized items (the items carry
`hash` already, and no `sha256`), then `upsertScene` for `.unity` items with
a truthy guid. -/
def applyImportedBatch (db : Db) (its : List ManifestItem) (ts : Int) : Db :=
  let db' := upsertAssets db (its.map manifestToUpsert) ts
  its.foldl
    (fun d it => if strEndsWith it.path ".unity" && it.guid ≠ "" then upsertScene d it.guid it.path ts else d)
    db'

/-- Catalog effects of the live Indexer's `scene_saved` handler:
`upsertAssets` of `{guid, path, kind: "Scene", deps}` and `upsertScene`. -/
def applySceneSaved (db : Db) (sc : ManifestItem) (ts : Int) : Db :=
  let db' := upsertAssets db
    [{ guid := some sc.guid, path := some sc.path, kind := some "Scene" }] ts
  upsertScene db' sc.guid sc.path ts

/-- The full result of one `reconcile` run: final catalog, statistics, and the
vector-store deletions issued in each phase. -/
structure ReconcileOut where
  db : Db
  stats : ReconcileStats
  modDeletes : List String
  delDeletes : List String
  moveDeletes : List String
  reindexScripts : List ManifestItem
  reindexScenes : List ManifestItem
deriving Repr, DecidableEq

/-- `reconcile(projectRoot, items)`: classification pass over the live
snapshot, `markDeleted` + `deletePointsByPath` for rows absent from the
manifest, one `upsertAssets` transaction for added/moved rows, synthetic
`assets_imported` / `scene_saved` reindex events, and `deletePointsByPath`
cleanup for every move. -/
def reconcile (db0 : Db) (items : List ManifestItem) (now : Int) : ReconcileOut :=
  let live := db0.assets.filter (fun r => !r.deleted)
  let o := pass1 live items
  let deletedRows := live.filter (fun r => !(o.seen.contains r.guid))
  let db1 := markDeleted db0 (deletedRows.map (fun r => r.guid)) now
  let db2 := upsertAssets db1 (o.toUpsert.map manifestToUpsert) now
  let scripts := o.toReindex.filter (fun x => isTextual x.kind x.path)
  let scenes := o.toReindex.filter (fun x => isScene x.path)
  let db3 := if scripts.isEmpty then db2 else applyImportedBatch db2 scripts now
  let db4 := scenes.foldl (fun d sc => applySceneSaved d sc now) db3
  { db := db4,
    stats := ⟨o.added, deletedRows.length, o.moved, o.modified⟩,
    modDeletes := o.modDeletes,
    delDeletes := deletedRows.map (fun r => normSlash r.path),
    moveDeletes := o.toMoved.map (fun m => normSlash m.2.1),
    reindexScripts := scripts,
    reindexScenes := scenes }

/-- Whether the classification loop marks `it` modified (code behavior):
a live row with the same path whose `changedWitness` fires. -/
def modifiedPred (live : List AssetRow) (it : ManifestItem) : Bool :=
  !it.isFolder &&
    match lookupAsset live it.guid with
    | some row => row.path = it.path && changedWitness row it
    | none => false

/-- Modelled from the spec: the claim's modified test — "`hash` differs when
both sides have hashes, else `mtime` differs when neither has hashes". -/
def specChangedWitness (row : AssetRow) (it : ManifestItem) : Bool :=
  (row.hash.isSome && it.hash.isSome && row.hash ≠ it.hash) ||
  (row.hash.isNone && it.hash.isNone && row.mtime ≠ it.mtime)

/-- Modelled from the spec: the claim's per-item modified classification. -/
def specModifiedPred (live : List AssetRow) (it : ManifestItem) : Bool :=
  !it.isFolder &&
    match lookupAsset live it.guid with
    | some row => row.path = it.path && specChangedWitness row it
    | none => false

/-- Whether the classification loop marks `it` ADDED: not a folder and no
live row for its guid. -/
def addedPred (live : List AssetRow) (it : ManifestItem) : Bool :=
  !it.isFolder && (lookupAsset live it.guid).isNone

/-- Whether the classification loop marks `it` MOVED: a live row with a
different path. -/
def movedPred (live : List AssetRow) (it : ManifestItem) : Bool :=
  !it.isFolder &&
    match lookupAsset live it.guid with
    | some row => row.path ≠ it.path
    | none => false

/-- Whether the classification loop pushes `it` onto the upsert batch
(added and moved branches only). -/
def upsertPred (live : List AssetRow) (it : ManifestItem) : Bool :=
  addedPred live it || movedPred live it

/-- Whether the classification loop schedules `it` for reindex: one of the
three branches fired and the item is textual or a scene. -/
def reindexPred (live : List AssetRow) (it : ManifestItem) : Bool :=
  (addedPred live it || movedPred live it || modifiedPred live it) &&
  (isTextual it.kind it.path || isScene it.path)

/-- The old path recorded in the move list for a moved item. -/
def movedOldPath (live : List AssetRow) (it : ManifestItem) : String :=
  match lookupAsset live it.guid with
  | some row => row.path
  | none => ""

/-- A catalog row that makes the classification loop leave `it` untouched on
the next run: same path, live, and no changed witness. -/
def goodRow (it : ManifestItem) (r : AssetRow) : Bool :=
  r.path = it.path && !r.deleted && !changedWitness r it

/-! ## Vector store and the per-event pipeline (`memory/qdrant.ts`,
`Indexer.indexScript` / `Indexer.indexScene`)

Vector coordinates are modelled as rationals (the guard's `1e-12` threshold
becomes the exact rational `1/10^12`; the claims quantify over "effectively
zero", not over double rounding).  The collection is a point list; Qdrant
point ids are unique, so `delete by scrolled ids` is a payload filter. -/

/-- A JSON payload value (only the shapes the Indexer writes). -/
inductive PValue where
  | s (v : String)
  | i (v : Int)
  | undef
deriving Repr, DecidableEq

/-- A vector point. -/
structure QPoint where
  id : String
  vector : List Rat
  payload : List (String × PValue)
deriving Repr, DecidableEq

/-- Payload field lookup. -/
def payloadLookup (p : QPoint) (k : String) : Option PValue :=
  (p.payload.find? (fun kv => kv.1 = k)).map (fun kv => kv.2)

/-- `relPath.replaceAll("\\", "/").replace(/^\.\//, "")` in `deletePointsByPath`. -/
def normalizePathQ (s : String) : String :=
  let t := normSlash s
  if strStartsWith t "./" then t.drop 2 else t

/-- `deletePointsByPath`: scroll all point ids whose payload `rel_path`
equals the normalized path exactly, then delete those ids (`wait=true`). -/
def deletePointsByPath (relPath : String) (store : List QPoint) : List QPoint :=
  let np := normalizePathQ relPath
  store.filter (fun p => !(decide (payloadLookup p "rel_path" = some (PValue.s np))))

/-- `guid.toLowerCase().replace(/[{}]/g, "")` in `deletePointsByGuid`. -/
def normalizeGuid (g : String) : String :=
  String.mk ((g.data.map Char.toLower).filter
    (fun c => !(decide (c = Char.ofNat 123 ∨ c = Char.ofNat 125))))

/-- `deletePointsByGuid`: filter-based delete on payload field `guid`
(`wait=true`). -/
def deletePointsByGuid (g : String) (store : List QPoint) : List QPoint :=
  let ng := normalizeGuid g
  store.filter (fun p => !(decide (payloadLookup p "guid" = some (PValue.s ng))))

/-- The payload `session` field: the JS object key is always present; an
absent event session is the JS `undefined`. -/
def sessionVal : Option String → PValue
  | none => PValue.undef
  | some s => PValue.s s

/-- The payload object built for one chunk in `Indexer.indexScript` /
`Indexer.indexScene` (`kind` is `"Script"` or `"Scene"`). -/
def chunkPayload (kind normalizedPath : String) (c : ChunkRec) (sess : Option String)
    (ts : Int) : List (String × PValue) :=
  [("rel_path", PValue.s normalizedPath),
   ("range", PValue.s (natToDec c.line_start ++ "-" ++ natToDec c.line_end)),
   ("file_hash", PValue.s c.hash),
   ("kind", PValue.s kind),
   ("session", sessionVal sess),
   ("updated_ts", PValue.i ts),
   ("text", PValue.s c.text)]

/-- `vectors.some(v => v.every(x => Math.abs(x) < 1e-12))`, per vector. -/
def effectivelyZero (v : List Rat) : Bool :=
  v.all (fun x => |x| < 1 / 1000000000000)

/-- The environment one pipeline invocation runs in: the declared embedder
dimension, the outcome of the (retried) file read, and the embedding call. -/
structure EmbedEnv where
  dim : Nat
  readResult : Except String String
  embed : List String → Except String (List (List Rat))

/-- `Indexer.indexScript(relPath, evt, ts)` after the initial
`deletePointsByPath`: read (with retry) → chunk → embed → shape/zero guard →
build points.  Returns the points passed to `upsertPoints`, or the error that
aborts the event; `upsertPoints` is called exactly when the result is `ok`. -/
def indexScript (env : EmbedEnv) (relPath absPath : String) (sess : Option String)
    (ts : Int) : Except String (List QPoint) :=
  let normalizedPath := normSlash relPath
  match env.readResult with
  | .error e => .error e
  | .ok text =>
    let chunks := chunkText text absPath "Script" 500 20
    match env.embed (chunks.map (fun c => c.text)) with
    | .error e => .error e
    | .ok vectors =>
      if vectors.length ≠ chunks.length ∨ vectors.any (fun v => v.length ≠ env.dim) then
        .error ("invalid shape for " ++ normalizedPath)
      else if vectors.any effectivelyZero then
        .error ("zero vectors detected for " ++ normalizedPath)
      else
        .ok (List.zipWith
          (fun c v => ⟨c.id, v, chunkPayload "Script" normalizedPath c sess ts⟩)
          chunks vectors)

/-- `Indexer.indexScene(relPath, evt, ts)`: identical pipeline with scene
chunk parameters (target 700 tokens, overlap 30) and `kind = "Scene"`. -/
def indexScene (env : EmbedEnv) (relPath absPath : String) (sess : Option String)
    (ts : Int) : Except String (List QPoint) :=
  let normalizedPath := normSlash relPath
  match env.readResult with
  | .error e => .error e
  | .ok text =>
    let chunks := chunkText text absPath "Scene" 700 30
    match env.embed (chunks.map (fun c => c.text)) with
    | .error e => .error e
    | .ok vectors =>
      if vectors.length ≠ chunks.length ∨ vectors.any (fun v => v.length ≠ env.dim) then
        .error ("invalid shape for " ++ normalizedPath)
      else if vectors.any effectivelyZero then
        .error ("zero vectors detected for " ++ normalizedPath)
      else
        .ok (List.zipWith
          (fun c v => ⟨c.id, v, chunkPayload "Scene" normalizedPath c sess ts⟩)
          chunks vectors)

/-! ## Pause/resume protocol (live `Indexer` in `progress.ts`)

The queue discipline is modelled over an abstract event type `E` and world
`W` with an abstract per-event application `apply : W → E → W × Except String
Unit` (the event handler may both mutate state and fail).  The 100 ms
settling delay in `pause()` is real time and outside the state model. -/

/-- The Indexer's pause/queue state: the `paused` flag, the `pendingEvents`
list (arrival order), and the world the events act on. -/
structure IndexerSt (E W : Type) where
  paused : Bool
  pending : List E
  world : W

deriving instance DecidableEq for Except

/-- The visible outcome of one `handleUnityEvent` call: a still-pending
future (event queued), or a settled result. -/
inductive HandleOutcome where
  | queued
  | done (r : Except String Unit)
deriving Repr, DecidableEq

/-- `handleUnityEvent`: while paused, push the event (with its future) onto
`pendingEvents` and return a pending promise; otherwise apply it now. -/
def handleUnityEvent (apply : W → E → W × Except String Unit) (s : IndexerSt E W)
    (e : E) : IndexerSt E W × HandleOutcome :=
  if s.paused then
    ({ s with pending := s.pending ++ [e] }, HandleOutcome.queued)
  else
    let (w', r) := apply s.world e
    ({ s with world := w' }, HandleOutcome.done r)

/-- Submit a list of events in order, collecting the outcome of each call. -/
def submitAll (apply : W → E → W × Except String Unit) (s : IndexerSt E W) :
    List E → IndexerSt E W × List HandleOutcome
  | [] => (s, [])
  | e :: es =>
    let (s', o) := handleUnityEvent apply s e
    let (s'', os) := submitAll apply s' es
    (s'', o :: os)

/-- `pause()`: set the flag (the settling delay is not part of the state). -/
def pause (s : IndexerSt E W) : IndexerSt E W := { s with paused := true }

/-- The `resume()` drain loop: apply each queued event in arrival order,
settling each future with its own result; a rejection does not stop the
drain. -/
def drainQueue (apply : W → E → W × Except String Unit) :
    W → List E → W × List (E × Except String Unit)
  | w, [] => (w, [])
  | w, e :: es =>
    let (w', r) := apply w e
    let (w'', log) := drainQueue apply w' es
    (w'', (e, r) :: log)

/-- `resume()`: clear the flag, take the queue, and drain it in order. -/
def resume (apply : W → E → W × Except String Unit) (s : IndexerSt E W) :
    IndexerSt E W × List (E × Except String Unit) :=
  let (w', log) := drainQueue apply s.world s.pending
  ({ paused := false, pending := [], world := w' }, log)

/-! ## Maintenance wipe (`scripts/wipe-db.ts`, Qdrant drop/recreate variant)

`wipeDatabase` is modelled as the trace of the externally visible operations
it performs, in order, plus the returned `{success, message}`.  The
environment says which fallible steps fail: the Qdrant block swallows its own
failures, SQLite failures propagate to the outer catch, the `finally` always
resumes the writers. -/

/-- One externally visible step of `wipeDatabase`. -/
inductive WipeAct where
  | pauseWriters
  | qdrantReady
  | qdrantDrop
  | qdrantCreate (dim : Nat)
  | qdrantIndexField (f : String)
  | openDb
  | beginImmediate
  | deleteFromTable (t : String)
  | resetSequence (t : String)
  | commitTx
  | closeDb
  | walCheckpointTruncate
  | vacuumDb
  | rollbackTx
  | resumeWriters
deriving Repr, DecidableEq

/-- Which steps of a `wipeDatabase` run fail, and the user tables
(`sqlite_master` names that are not `sqlite_%`) with their pre-wipe row
counts. -/
structure WipeEnv where
  qdrantReadyOk : Bool
  dropOk : Bool
  createOk : Bool
  indexRelOk : Bool
  indexGuidOk : Bool
  tables : List (String × Nat)
  beginOk : Bool
  deleteFailures : List String
  commitOk : Bool
  checkpointOk : Bool
  vacuumOk : Bool
deriving Repr, DecidableEq

/-- The Qdrant block: `waitQdrantReady().catch(noop)`, then
`try { drop; create(384); index("rel_path"); index("guid") } catch { warn }` —
the attempted calls, stopping at the first failure, all failures swallowed. -/
def qdrantTrace (env : WipeEnv) : List WipeAct :=
  [WipeAct.qdrantReady] ++
  [WipeAct.qdrantDrop] ++
  (if env.dropOk then
    [WipeAct.qdrantCreate 384] ++
    (if env.createOk then
      [WipeAct.qdrantIndexField "rel_path"] ++
      (if env.indexRelOk then [WipeAct.qdrantIndexField "guid"] else [])
    else [])
  else [])

/-- The per-table loop: `DELETE FROM t` (propagating a failure) then
`DELETE FROM sqlite_sequence WHERE name = t` (its own failures swallowed).
Returns the trace and the first failing table, if any. -/
def wipeDeleteLoop (fails : List String) : List (String × Nat) → List WipeAct × Option String
  | [] => ([], none)
  | (n, _) :: rest =>
    if fails.contains n then ([WipeAct.deleteFromTable n], some n)
    else
      let (tr, f) := wipeDeleteLoop fails rest
      (WipeAct.deleteFromTable n :: WipeAct.resetSequence n :: tr, f)

/-- The `catch`/`finally` tail on a failure: attempt `ROLLBACK` on a fresh
connection, close, and always resume the writers. -/
def wipeFailTail : List WipeAct :=
  [WipeAct.openDb, WipeAct.rollbackTx, WipeAct.closeDb, WipeAct.resumeWriters]

/-- The success message: `Wipe complete. Tables cleared: t(n→0), …`. -/
def wipeMessage (tables : List (String × Nat)) : String :=
  "Wipe complete. Tables cleared: " ++
  String.intercalate ", " (tables.map (fun nc => nc.1 ++ "(" ++ natToDec nc.2 ++ "→0)"))

/-- `wipeDatabase()` (the variant with the Qdrant drop/recreate): pause all
writers; wipe the vector collection best-effort; `BEGIN IMMEDIATE`, delete
every user table's rows and reset its autoincrement counter, `COMMIT`;
truncating WAL checkpoint and `VACUUM` on a fresh connection; always resume
the writers, attempting a rollback on any uncaught exception. -/
def wipeDatabase (env : WipeEnv) : List WipeAct × Bool × String :=
  let head := [WipeAct.pauseWriters] ++ qdrantTrace env ++ [WipeAct.openDb, WipeAct.beginImmediate]
  if !env.beginOk then
    (head ++ wipeFailTail, false, "Failed: begin immediate")
  else
    let (delTr, delFail) := wipeDeleteLoop env.deleteFailures env.tables
    match delFail with
    | some t => (head ++ delTr ++ wipeFailTail, false, "Failed: delete from " ++ t)
    | none =>
      let t4 := head ++ delTr ++ [WipeAct.commitTx]
      if !env.commitOk then
        (t4 ++ wipeFailTail, false, "Failed: commit")
      else
        let t5 := t4 ++ [WipeAct.closeDb, WipeAct.openDb, WipeAct.walCheckpointTruncate]
        if !env.checkpointOk then
          (t5 ++ [WipeAct.closeDb] ++ wipeFailTail, false, "Failed: checkpoint")
        else
          let t6 := t5 ++ [WipeAct.vacuumDb]
          if !env.vacuumOk then
            (t6 ++ [WipeAct.closeDb] ++ wipeFailTail, false, "Failed: vacuum")
          else
            (t6 ++ [WipeAct.closeDb, WipeAct.resumeWriters], true, wipeMessage env.tables)

/-! # Theorems -/

/-! ## General list helpers -/

theorem mem_zipWith {f : α → β → γ} :
    ∀ {l : List α} {m : List β} {c : γ}, c ∈ List.zipWith f l m →
      ∃ a, a ∈ l ∧ ∃ b, b ∈ m ∧ c = f a b := by
  intro l
  induction l with
  | nil => intro m c hc; simp at hc
  | cons a as ih =>
    intro m c hc
    cases m with
    | nil => simp at hc
    | cons b bs =>
      simp only [List.zipWith_cons_cons, List.mem_cons] at hc
      rcases hc with h | h
      · exact ⟨a, by simp, b, by simp, h⟩
      · obtain ⟨a', ha', b', hb', rfl⟩ := ih h
        exact ⟨a', by simp [ha'], b', by simp [hb'], rfl⟩

/-! ## C7 — shape/zero guard and failure containment in the pipeline -/

/-- **C7.** In every pipeline invocation, after embedding the guard rejects
the event whenever the vector count differs from the chunk count, any
vector's length differs from the declared dimension, or any vector is
effectively zero; and whenever the read, embed, or guard step fails, the
result is an error, so `upsertPoints` is never reached (the points exist only
in the `ok` case, and the `ok` case implies every guard condition held). -/
theorem C7_embed_guard (env : EmbedEnv) (relPath absPath : String) (sess : Option String)
    (ts : Int) :
    (∀ e, env.readResult = Except.error e →
        indexScript env relPath absPath sess ts = Except.error e ∧
        indexScene env relPath absPath sess ts = Except.error e)
  ∧ (∀ text e, env.readResult = Except.ok text →
        env.embed ((chunkText text absPath "Script" 500 20).map (fun c => c.text)) =
          Except.error e →
        indexScript env relPath absPath sess ts = Except.error e)
  ∧ (∀ text vectors, env.readResult = Except.ok text →
        env.embed ((chunkText text absPath "Script" 500 20).map (fun c => c.text)) =
          Except.ok vectors →
        (vectors.length ≠ (chunkText text absPath "Script" 500 20).length ∨
         (∃ v ∈ vectors, v.length ≠ env.dim) ∨ ∃ v ∈ vectors, effectivelyZero v) →
        ∃ m, indexScript env relPath absPath sess ts = Except.error m)
  ∧ (∀ pts, indexScript env relPath absPath sess ts = Except.ok pts →
        ∃ text vectors, env.readResult = Except.ok text ∧
          env.embed ((chunkText text absPath "Script" 500 20).map (fun c => c.text)) =
            Except.ok vectors ∧
          vectors.length = (chunkText text absPath "Script" 500 20).length ∧
          (∀ v ∈ vectors, v.length = env.dim) ∧
          ∀ v ∈ vectors, effectivelyZero v = false)
  ∧ (∀ text vectors, env.readResult = Except.ok text →
        env.embed ((chunkText text absPath "Scene" 700 30).map (fun c => c.text)) =
          Except.ok vectors →
        (vectors.length ≠ (chunkText text absPath "Scene" 700 30).length ∨
         (∃ v ∈ vectors, v.length ≠ env.dim) ∨ ∃ v ∈ vectors, effectivelyZero v) →
        ∃ m, indexScene env relPath absPath sess ts = Except.error m) := by
  refine ⟨?_, ?_, ?_, ?_, ?_⟩
  · intro e he
    constructor <;> simp [indexScript, indexScene, he]
  · intro text e hr he
    simp [indexScript, hr, he]
  · intro text vectors hr he hbad
    simp only [indexScript, hr, he]
    by_cases h1 : vectors.length ≠ (chunkText text absPath "Script" 500 20).length ∨
        vectors.any (fun v => v.length ≠ env.dim)
    · exact ⟨_, by rw [if_pos h1]⟩
    · rcases hbad with hlen | ⟨v, hv, hdim⟩ | ⟨v, hv, hz⟩
      · exact absurd (Or.inl hlen) h1
      · exact absurd (Or.inr (by simp only [List.any_eq_true, decide_eq_true_eq]; exact ⟨v, hv, hdim⟩)) h1
      · have h2 : vectors.any effectivelyZero := by
          simp only [List.any_eq_true]; exact ⟨v, hv, hz⟩
        exact ⟨_, by rw [if_neg h1, if_pos h2]⟩
  · intro pts hok
    simp only [indexScript] at hok
    rcases hr : env.readResult with e | text <;> rw [hr] at hok <;> dsimp only at hok
    · exact absurd hok (by simp)
    rcases he : env.embed ((chunkText text absPath "Script" 500 20).map (fun c => c.text))
      with e | vectors <;> rw [he] at hok <;> dsimp only at hok
    · exact absurd hok (by simp)
    by_cases h1 : vectors.length ≠ (chunkText text absPath "Script" 500 20).length ∨
        vectors.any (fun v => v.length ≠ env.dim)
    · rw [if_pos h1] at hok; exact absurd hok (by simp)
    rw [if_neg h1] at hok
    by_cases h2 : (vectors.any effectivelyZero : Prop)
    · rw [if_pos h2] at hok; exact absurd hok (by simp)
    rw [if_neg h2] at hok
    have hlen : vectors.length = (chunkText text absPath "Script" 500 20).length := by
      by_contra hne; exact h1 (Or.inl hne)
    have hdim : ∀ v ∈ vectors, v.length = env.dim := by
      intro v hv; by_contra hne
      exact h1 (Or.inr (by simp only [List.any_eq_true, decide_eq_true_eq]; exact ⟨v, hv, hne⟩))
    have hzf : ∀ v ∈ vectors, effectivelyZero v = false := by
      intro v hv; by_contra hzv
      simp only [Bool.not_eq_false] at hzv
      exact h2 (by simp only [List.any_eq_true]; exact ⟨v, hv, hzv⟩)
    exact ⟨text, vectors, rfl, he, hlen, hdim, hzf⟩
  · intro text vectors hr he hbad
    simp only [indexScene, hr, he]
    by_cases h1 : vectors.length ≠ (chunkText text absPath "Scene" 700 30).length ∨
        vectors.any (fun v => v.length ≠ env.dim)
    · exact ⟨_, by rw [if_pos h1]⟩
    · rcases hbad with hlen | ⟨v, hv, hdim⟩ | ⟨v, hv, hz⟩
      · exact absurd (Or.inl hlen) h1
      · exact absurd (Or.inr (by simp only [List.any_eq_true, decide_eq_true_eq]; exact ⟨v, hv, hdim⟩)) h1
      · have h2 : vectors.any effectivelyZero := by
          simp only [List.any_eq_true]; exact ⟨v, hv, hz⟩
        exact ⟨_, by rw [if_neg h1, if_pos h2]⟩

/-- Witness for C7: with a declared dimension of 2, a readable one-line file
and an embedder returning a single zero vector of the right shape, the guard
rejects the event. -/
theorem C7_embed_guard_witness :
    (⟨2, Except.ok "x", fun _ => Except.ok [[0, 0]]⟩ : EmbedEnv).readResult = Except.ok "x" ∧
    ∃ m, indexScript ⟨2, Except.ok "x", fun _ => Except.ok [[0, 0]]⟩ "p" "/a/p" none 0 =
      Except.error m := by
  refine ⟨rfl, ?_⟩
  refine (C7_embed_guard ⟨2, Except.ok "x", fun _ => Except.ok [[0, 0]]⟩ "p" "/a/p" none 0).2.2.1
    "x" [[0, 0]] rfl rfl ?_
  refine Or.inr (Or.inr ⟨[0, 0], by simp, ?_⟩)
  simp only [effectivelyZero, List.all_cons, List.all_nil, Bool.and_true, Bool.and_eq_true,
    decide_eq_true_eq, abs_zero]
  norm_num

/-! ## C10 — the Indexer never writes a `guid` payload key -/

theorem indexScript_ok_points (env : EmbedEnv) (relPath absPath : String)
    (sess : Option String) (ts : Int) (pts : List QPoint)
    (h : indexScript env relPath absPath sess ts = Except.ok pts) :
    ∃ text vectors, pts = List.zipWith
      (fun c v => ⟨c.id, v, chunkPayload "Script" (normSlash relPath) c sess ts⟩)
      (chunkText text absPath "Script" 500 20) vectors := by
  simp only [indexScript] at h
  rcases hr : env.readResult with e | text <;> rw [hr] at h <;> dsimp only at h
  · exact absurd h (by simp)
  rcases he : env.embed ((chunkText text absPath "Script" 500 20).map (fun c => c.text))
    with e | vectors <;> rw [he] at h <;> dsimp only at h
  · exact absurd h (by simp)
  by_cases h1 : vectors.length ≠ (chunkText text absPath "Script" 500 20).length ∨
      vectors.any (fun v => v.length ≠ env.dim)
  · rw [if_pos h1] at h; exact absurd h (by simp)
  rw [if_neg h1] at h
  by_cases h2 : (vectors.any effectivelyZero : Prop)
  · rw [if_pos h2] at h; exact absurd h (by simp)
  rw [if_neg h2] at h
  exact ⟨text, vectors, (Except.ok.injEq _ _ ▸ h).symm⟩

theorem indexScene_ok_points (env : EmbedEnv) (relPath absPath : String)
    (sess : Option String) (ts : Int) (pts : List QPoint)
    (h : indexScene env relPath absPath sess ts = Except.ok pts) :
    ∃ text vectors, pts = List.zipWith
      (fun c v => ⟨c.id, v, chunkPayload "Scene" (normSlash relPath) c sess ts⟩)
      (chunkText text absPath "Scene" 700 30) vectors := by
  simp only [indexScene] at h
  rcases hr : env.readResult with e | text <;> rw [hr] at h <;> dsimp only at h
  · exact absurd h (by simp)
  rcases he : env.embed ((chunkText text absPath "Scene" 700 30).map (fun c => c.text))
    with e | vectors <;> rw [he] at h <;> dsimp only at h
  · exact absurd h (by simp)
  by_cases h1 : vectors.length ≠ (chunkText text absPath "Scene" 700 30).length ∨
      vectors.any (fun v => v.length ≠ env.dim)
  · rw [if_pos h1] at h; exact absurd h (by simp)
  rw [if_neg h1] at h
  by_cases h2 : (vectors.any effectivelyZero : Prop)
  · rw [if_pos h2] at h; exact absurd h (by simp)
  rw [if_neg h2] at h
  exact ⟨text, vectors, (Except.ok.injEq _ _ ▸ h).symm⟩

/-- **C10.** Every vector point the Indexer writes carries exactly the payload
keys `rel_path, range, file_hash, kind, session, updated_ts, text` and never a
`guid` key; consequently the filter-based `deletePointsByGuid` backup matches
no Indexer-written point (it is the identity on such stores), and removal is
achieved solely by the path-based delete. -/
theorem C10_indexer_points_have_no_guid :
    (∀ env relPath absPath sess ts pts,
        (indexScript env relPath absPath sess ts = Except.ok pts ∨
         indexScene env relPath absPath sess ts = Except.ok pts) →
        ∀ p ∈ pts,
          p.payload.map Prod.fst =
            ["rel_path", "range", "file_hash", "kind", "session", "updated_ts", "text"] ∧
          payloadLookup p "guid" = none)
  ∧ (∀ g store, (∀ p ∈ store, payloadLookup p "guid" = none) →
        deletePointsByGuid g store = store) := by
  constructor
  · intro env relPath absPath sess ts pts hok p hp
    rcases hok with hok | hok
    · obtain ⟨text, vectors, rfl⟩ := indexScript_ok_points env relPath absPath sess ts pts hok
      obtain ⟨c, _, v, _, rfl⟩ := mem_zipWith hp
      exact ⟨rfl, rfl⟩
    · obtain ⟨text, vectors, rfl⟩ := indexScene_ok_points env relPath absPath sess ts pts hok
      obtain ⟨c, _, v, _, rfl⟩ := mem_zipWith hp
      exact ⟨rfl, rfl⟩
  · intro g store hstore
    refine List.filter_eq_self.mpr ?_
    intro p hp
    simp [hstore p hp]

/-- Witness for C10: a store holding one concrete Indexer-shaped point is left
untouched by `deletePointsByGuid`. -/
theorem C10_indexer_points_have_no_guid_witness :
    payloadLookup ⟨"id0", [], chunkPayload "Script" "a.cs" ⟨"id0", "p", "Script", "t", 1, 2, "ff"⟩ none 7⟩ "guid" = none ∧
    deletePointsByGuid "G"
      [⟨"id0", [], chunkPayload "Script" "a.cs" ⟨"id0", "p", "Script", "t", 1, 2, "ff"⟩ none 7⟩] =
      [⟨"id0", [], chunkPayload "Script" "a.cs" ⟨"id0", "p", "Script", "t", 1, 2, "ff"⟩ none 7⟩] := by
  refine ⟨rfl, ?_⟩
  exact C10_indexer_points_have_no_guid.2 "G" _ (by intro p hp; simp at hp; subst hp; rfl)

/-! ## C8 — pause/resume queue discipline -/

theorem submitAll_paused (apply : W → E → W × Except String Unit) :
    ∀ (es : List E) (s : IndexerSt E W), s.paused = true →
      submitAll apply s es =
        ({ s with pending := s.pending ++ es }, es.map (fun _ => HandleOutcome.queued)) := by
  intro es
  induction es with
  | nil => intro s hp; simp [submitAll]
  | cons e es ih =>
    intro s hp
    have h1 : handleUnityEvent apply s e =
        ({ s with pending := s.pending ++ [e] }, HandleOutcome.queued) := by
      simp [handleUnityEvent, hp]
    simp only [submitAll, h1]
    rw [ih { s with pending := s.pending ++ [e] } hp]
    simp [List.append_assoc]

theorem drainQueue_map_fst (apply : W → E → W × Except String Unit) :
    ∀ (es : List E) (w : W), (drainQueue apply w es).2.map Prod.fst = es := by
  intro es
  induction es with
  | nil => intro w; simp [drainQueue]
  | cons e es ih => intro w; simp [drainQueue, ih]

theorem drainQueue_world (apply : W → E → W × Except String Unit) :
    ∀ (es : List E) (w : W),
      (drainQueue apply w es).1 = es.foldl (fun w e => (apply w e).1) w := by
  intro es
  induction es with
  | nil => intro w; simp [drainQueue]
  | cons e es ih => intro w; simp [drainQueue, ih]

/-- **C8.** Every event submitted between `pause()` and `resume()` is queued
in order and returns a pending future, none is applied while paused (the
world is unchanged and the queue grows by exactly the submitted events), and
after `resume()` each queued event is applied exactly once in submission
order (the settle log lists exactly the queued events, in order, each with
its own result), a failed event rejecting only its own future while the drain
continues to the end (the log covers every queued event whatever the
individual results). -/
theorem C8_pause_resume_protocol (apply : W → E → W × Except String Unit)
    (s : IndexerSt E W) (es : List E) (hp : s.paused = true) :
    (submitAll apply s es).2 = es.map (fun _ => HandleOutcome.queued)
  ∧ (submitAll apply s es).1.world = s.world
  ∧ (submitAll apply s es).1.pending = s.pending ++ es
  ∧ (resume apply (submitAll apply s es).1).2.map Prod.fst = s.pending ++ es
  ∧ (resume apply (submitAll apply s es).1).2.length = (s.pending ++ es).length
  ∧ (resume apply (submitAll apply s es).1).1.world
      = (s.pending ++ es).foldl (fun w e => (apply w e).1) s.world
  ∧ (resume apply (submitAll apply s es).1).1.pending = []
  ∧ (resume apply (submitAll apply s es).1).1.paused = false := by
  rw [submitAll_paused apply es s hp]
  refine ⟨rfl, rfl, rfl, ?_, ?_, ?_, rfl, rfl⟩
  · simp [resume, drainQueue_map_fst]
  · have h := drainQueue_map_fst apply (s.pending ++ es) s.world
    simp only [resume]
    calc (drainQueue apply s.world (s.pending ++ es)).2.length
        = ((drainQueue apply s.world (s.pending ++ es)).2.map Prod.fst).length := by
          rw [List.length_map]
      _ = (s.pending ++ es).length := by rw [h]
  · simp [resume, drainQueue_world]

/-- Witness for C8: two events queued while paused (the first one's handler
fails) are both drained, in order. -/
theorem C8_pause_resume_protocol_witness :
    ((⟨true, [], 0⟩ : IndexerSt Nat Nat).paused = true) ∧
    (resume (fun w e => (w + e, if e = 1 then Except.error "boom" else Except.ok ()))
        ((submitAll (fun w e => (w + e, if e = 1 then Except.error "boom" else Except.ok ()))
          (⟨true, [], 0⟩ : IndexerSt Nat Nat) [1, 2]).1)).2.map Prod.fst = [1, 2] ∧
    (resume (fun w e => (w + e, if e = 1 then Except.error "boom" else Except.ok ()))
        ((submitAll (fun w e => (w + e, if e = 1 then Except.error "boom" else Except.ok ()))
          (⟨true, [], 0⟩ : IndexerSt Nat Nat) [1, 2]).1)).1.world = 3 := by
  have h := C8_pause_resume_protocol
    (fun (w e : Nat) => (w + e, if e = 1 then Except.error "boom" else Except.ok ()))
    (⟨true, [], 0⟩ : IndexerSt Nat Nat) [1, 2] rfl
  exact ⟨rfl, by simpa using h.2.2.2.1, by simpa using h.2.2.2.2.2.1⟩

/-! ## C9 — wipe protocol -/

theorem wipeDeleteLoop_ok (fails : List String) :
    ∀ tables : List (String × Nat), (∀ t ∈ tables, fails.contains t.1 = false) →
      wipeDeleteLoop fails tables =
        ((tables.map (fun t => [WipeAct.deleteFromTable t.1, WipeAct.resetSequence t.1])).flatten,
         none) := by
  intro tables
  induction tables with
  | nil => intro _; simp [wipeDeleteLoop]
  | cons t rest ih =>
    intro h
    obtain ⟨n, c⟩ := t
    have hn : fails.contains n = false := h (n, c) (by simp)
    simp only [wipeDeleteLoop, hn, Bool.false_eq_true, if_neg, ite_false]
    rw [ih (fun u hu => h u (by simp [hu]))]
    simp

theorem getLast?_wipeFailTail (l : List WipeAct) :
    (l ++ wipeFailTail).getLast? = some WipeAct.resumeWriters := by
  rw [List.getLast?_append_of_ne_nil l (by simp [wipeFailTail])]
  rfl

/-- **C9.** Every `wipeDatabase` run pauses the writers first and resumes
them last (also on failure); it drops and recreates the vector collection
with the declared dimension 384 and payload indices on `rel_path` and `guid`
when the vector backend cooperates, and a vector-backend failure never
prevents the catalog wipe; on the happy path every user table is deleted and
its autoincrement counter reset inside the `BEGIN IMMEDIATE … COMMIT`
transaction, followed by a truncating WAL checkpoint and `VACUUM`, and the
returned message lists each table's pre-wipe row count; every failing run
reports `success = false` and attempts a rollback. -/
theorem C9_wipe_protocol (env : WipeEnv) :
    (wipeDatabase env).1.head? = some WipeAct.pauseWriters
  ∧ (wipeDatabase env).1.getLast? = some WipeAct.resumeWriters
  ∧ (env.beginOk = true → (∀ t ∈ env.tables, env.deleteFailures.contains t.1 = false) →
      ∀ t ∈ env.tables, WipeAct.deleteFromTable t.1 ∈ (wipeDatabase env).1 ∧
        WipeAct.resetSequence t.1 ∈ (wipeDatabase env).1)
  ∧ (env.dropOk = true → env.createOk = true → env.indexRelOk = true →
      WipeAct.qdrantCreate 384 ∈ (wipeDatabase env).1 ∧
      WipeAct.qdrantIndexField "rel_path" ∈ (wipeDatabase env).1 ∧
      WipeAct.qdrantIndexField "guid" ∈ (wipeDatabase env).1)
  ∧ ((wipeDatabase env).2.1 = false → WipeAct.rollbackTx ∈ (wipeDatabase env).1)
  ∧ (env.beginOk = true → (∀ t ∈ env.tables, env.deleteFailures.contains t.1 = false) →
      env.commitOk = true → env.checkpointOk = true → env.vacuumOk = true →
      (wipeDatabase env).2.1 = true ∧ (wipeDatabase env).2.2 = wipeMessage env.tables ∧
      (wipeDatabase env).1 =
        [WipeAct.pauseWriters] ++ qdrantTrace env ++ [WipeAct.openDb, WipeAct.beginImmediate] ++
        (env.tables.map (fun t => [WipeAct.deleteFromTable t.1, WipeAct.resetSequence t.1])).flatten ++
        [WipeAct.commitTx, WipeAct.closeDb, WipeAct.openDb, WipeAct.walCheckpointTruncate,
         WipeAct.vacuumDb, WipeAct.closeDb, WipeAct.resumeWriters]) := by
  refine ⟨?_, ?_, ?_, ?_, ?_, ?_⟩
  · unfold wipeDatabase
    split
    · rfl
    split
    split
    · rfl
    split
    · rfl
    split
    · rfl
    split
    · rfl
    · rfl
  · unfold wipeDatabase
    split
    · exact getLast?_wipeFailTail _
    split
    split
    · exact getLast?_wipeFailTail _
    split
    · exact getLast?_wipeFailTail _
    split
    · exact getLast?_wipeFailTail _
    split
    · exact getLast?_wipeFailTail _
    · rw [List.getLast?_append_of_ne_nil _ (by simp)]; rfl
  · intro hb hdel t ht
    have hloop := wipeDeleteLoop_ok env.deleteFailures env.tables hdel
    have hmem1 : WipeAct.deleteFromTable t.1 ∈
        (env.tables.map (fun u => [WipeAct.deleteFromTable u.1, WipeAct.resetSequence u.1])).flatten := by
      simp only [List.mem_flatten, List.mem_map]
      exact ⟨_, ⟨t, ht, rfl⟩, by simp⟩
    have hmem2 : WipeAct.resetSequence t.1 ∈
        (env.tables.map (fun u => [WipeAct.deleteFromTable u.1, WipeAct.resetSequence u.1])).flatten := by
      simp only [List.mem_flatten, List.mem_map]
      exact ⟨_, ⟨t, ht, rfl⟩, by simp⟩
    unfold wipeDatabase
    rw [if_neg (by simp [hb])]
    rw [hloop]
    dsimp only
    split
    · exact ⟨by simp [hmem1], by simp [hmem2]⟩
    split
    · exact ⟨by simp [hmem1], by simp [hmem2]⟩
    split
    · exact ⟨by simp [hmem1], by simp [hmem2]⟩
    · exact ⟨by simp [hmem1], by simp [hmem2]⟩
  · intro h1 h2 h3
    have hq1 : WipeAct.qdrantCreate 384 ∈ qdrantTrace env := by simp [qdrantTrace, h1, h2, h3]
    have hq2 : WipeAct.qdrantIndexField "rel_path" ∈ qdrantTrace env := by
      simp [qdrantTrace, h1, h2, h3]
    have hq3 : WipeAct.qdrantIndexField "guid" ∈ qdrantTrace env := by
      simp [qdrantTrace, h1, h2, h3]
    unfold wipeDatabase
    split
    · exact ⟨by simp [hq1], by simp [hq2], by simp [hq3]⟩
    split
    split
    · exact ⟨by simp [hq1], by simp [hq2], by simp [hq3]⟩
    split
    · exact ⟨by simp [hq1], by simp [hq2], by simp [hq3]⟩
    split
    · exact ⟨by simp [hq1], by simp [hq2], by simp [hq3]⟩
    split
    · exact ⟨by simp [hq1], by simp [hq2], by simp [hq3]⟩
    · exact ⟨by simp [hq1], by simp [hq2], by simp [hq3]⟩
  · unfold wipeDatabase
    split
    · intro _; simp [wipeFailTail]
    split
    split
    · intro _; simp [wipeFailTail]
    split
    · intro _; simp [wipeFailTail]
    split
    · intro _; simp [wipeFailTail]
    split
    · intro _; simp [wipeFailTail]
    · intro hfail; exact absurd hfail (by simp)
  · intro hb hdel hc hcp hv
    have hloop := wipeDeleteLoop_ok env.deleteFailures env.tables hdel
    unfold wipeDatabase
    rw [if_neg (by simp [hb])]
    rw [hloop]
    dsimp only
    rw [if_neg (by simp [hc]), if_neg (by simp [hcp]), if_neg (by simp [hv])]
    refine ⟨rfl, rfl, ?_⟩
    simp [List.append_assoc]

/-- Witness for C9: an all-healthy run over two user tables succeeds with the
per-table counts in the message and the full ordered trace. -/
theorem C9_wipe_protocol_witness :
    (wipeDatabase ⟨true, true, true, true, true, [("events", 2), ("assets", 3)], true, [],
        true, true, true⟩).2.1 = true ∧
    (wipeDatabase ⟨true, true, true, true, true, [("events", 2), ("assets", 3)], true, [],
        true, true, true⟩).2.2 =
      "Wipe complete. Tables cleared: events(2→0), assets(3→0)" ∧
    (wipeDatabase ⟨true, true, true, true, true, [("events", 2), ("assets", 3)], true, [],
        true, true, true⟩).1.getLast? = some WipeAct.resumeWriters := by
  have h := C9_wipe_protocol ⟨true, true, true, true, true, [("events", 2), ("assets", 3)],
    true, [], true, true, true⟩
  have hs := h.2.2.2.2.2 rfl (by intro t ht; fin_cases ht <;> rfl) rfl rfl rfl
  refine ⟨hs.1, ?_, h.2.1⟩
  rw [hs.2.1]
  decide

/-! ## C1 — chunk window geometry -/

theorem chunkTextLoop_windows (lines : List String) (p k : String) (lpc ov : Nat) :
    ∀ fuel i, (chunkTextLoop lines p k lpc ov fuel i).map (fun c => (c.line_start, c.line_end)) =
      codeWindows lines.length lpc (lpc - ov) fuel i := by
  intro fuel
  induction fuel with
  | zero => intro i; rfl
  | succ f ih =>
    intro i
    simp only [chunkTextLoop, codeWindows]
    by_cases h : i < lines.length
    · simp [h, ih]
    · simp [h]

theorem chunkFileLoop_windows (lines : List String) (p k : String) (lpc ov : Nat) :
    ∀ fuel i, (chunkFileLoop lines p k lpc ov fuel i).map (fun c => (c.line_start, c.line_end)) =
      specWindows lines.length lpc (lpc - ov) fuel i := by
  intro fuel
  induction fuel with
  | zero => intro i; rfl
  | succ f ih =>
    intro i
    have hmin : min lines.length (i + lpc) = min (i + lpc) lines.length := Nat.min_comm _ _
    by_cases h : i < lines.length
    · by_cases he : lines.length ≤ min (i + lpc) lines.length
      · simp [chunkFileLoop, specWindows, h, hmin, he]
      · have hval : min (i + lpc) lines.length = i + lpc := by omega
        have hadv : max (min (i + lpc) lines.length - ov) (i + 1) = i + max 1 (lpc - ov) := by
          rw [hval]; omega
        simp only [chunkFileLoop, specWindows, hmin]
        rw [if_pos h, if_pos h, if_neg he, if_neg he]
        simp only [List.map_cons, hadv, ih]
    · simp [chunkFileLoop, specWindows, h]

theorem codeWindows_nil (N lpc s fuel i : Nat) (h : ¬ i < N) :
    codeWindows N lpc s fuel i = [] := by
  cases fuel with
  | zero => rfl
  | succ f => simp [codeWindows, h]

theorem map_eq_singleton {f : α → β} {l : List α} {y : β} (h : l.map f = [y]) :
    ∃ a, l = [a] ∧ f a = y := by
  cases l with
  | nil => simp at h
  | cons a l' =>
    cases l' with
    | nil => simp only [List.map_cons, List.map_nil, List.cons.injEq, and_true] at h; exact ⟨a, rfl, h⟩
    | cons b l'' => simp at h

theorem splitLinesAux_ne_nil (l acc : List Char) : splitLinesAux l acc ≠ [] := by
  induction l, acc using splitLinesAux.induct <;> simp_all [splitLinesAux]

theorem splitLines_length_pos (s : String) : 0 < (splitLines s).length := by
  simp only [splitLines, List.length_map]
  exact List.length_pos.mpr (splitLinesAux_ne_nil s.data [])

/-- **C1 (amended).** `chunkFile` in `chunker.ts` implements exactly the
claimed algorithm: split on `\r?\n`, `linesPerChunk = max(30, ⌊target/4⌋)`,
windows `[i, min(i+linesPerChunk, N))` reported as 1-based inclusive line
numbers, advance by `max(1, linesPerChunk − overlap)`, stop as soon as a
window's end reaches the last line, and a file with `N ≤ linesPerChunk` lines
(in particular any file with fewer than 30 lines) yields exactly one chunk
spanning the whole file.  `Indexer.chunkText` in `indexer.ts` computes the
same windows but loops while the window start is below `N`, without the
stop-at-end break, so after a window's end reaches the last line it keeps
emitting shorter tail windows while the advance leaves the start below `N`;
it yields exactly one chunk precisely when `N ≤ max(1, linesPerChunk −
overlap)`, which covers files under 30 lines at the default overlaps but not
for every overlap. -/
theorem C1_chunker_windows (text p k : String) (t o : Nat) :
    ((chunkFile text p k t o).map (fun c => (c.line_start, c.line_end)) =
      specWindows (splitLines text).length (max 30 (t / 4)) (max 30 (t / 4) - o)
        (splitLines text).length 0)
  ∧ ((chunkText text p k t o).map (fun c => (c.line_start, c.line_end)) =
      codeWindows (splitLines text).length (max 30 (t / 4)) (max 30 (t / 4) - o)
        (splitLines text).length 0)
  ∧ ((splitLines text).length ≤ max 30 (t / 4) →
      ∃ c, chunkFile text p k t o = [c] ∧ c.line_start = 1 ∧
        c.line_end = (splitLines text).length)
  ∧ ((splitLines text).length ≤ max 1 (max 30 (t / 4) - o) →
      ∃ c, chunkText text p k t o = [c] ∧ c.line_start = 1 ∧
        c.line_end = (splitLines text).length) := by
  have hpos := splitLines_length_pos text
  have hlpc : 30 ≤ max 30 (t / 4) := Nat.le_max_left _ _
  refine ⟨chunkFileLoop_windows _ _ _ _ _ _ _, chunkTextLoop_windows _ _ _ _ _ _ _, ?_, ?_⟩
  · intro hsmall
    have hw : specWindows (splitLines text).length (max 30 (t / 4)) (max 30 (t / 4) - o)
        (splitLines text).length 0 = [(1, (splitLines text).length)] := by
      rcases hN : (splitLines text).length with _ | f
      · omega
      simp only [specWindows]
      rw [if_pos (by omega), if_pos (by rw [← hN]; omega)]
      have : min (0 + max 30 (t / 4)) (f + 1) = f + 1 := by rw [← hN]; omega
      rw [this]
    have hmap := chunkFileLoop_windows (splitLines text) p k (max 30 (t / 4)) o
      (splitLines text).length 0
    rw [hw] at hmap
    obtain ⟨c, hc, hpair⟩ := map_eq_singleton hmap
    exact ⟨c, hc, congrArg Prod.fst hpair, congrArg Prod.snd hpair⟩
  · intro hsmall
    have hNlpc : (splitLines text).length ≤ max 30 (t / 4) := by omega
    have hw : codeWindows (splitLines text).length (max 30 (t / 4)) (max 30 (t / 4) - o)
        (splitLines text).length 0 = [(1, (splitLines text).length)] := by
      rcases hN : (splitLines text).length with _ | f
      · omega
      simp only [codeWindows]
      rw [if_pos (by omega)]
      rw [codeWindows_nil _ _ _ _ _ (by rw [← hN]; omega)]
      have : min (0 + max 30 (t / 4)) (f + 1) = f + 1 := by rw [← hN]; omega
      rw [this]
    have hmap := chunkTextLoop_windows (splitLines text) p k (max 30 (t / 4)) o
      (splitLines text).length 0
    rw [hw] at hmap
    obtain ⟨c, hc, hpair⟩ := map_eq_singleton hmap
    exact ⟨c, hc, congrArg Prod.fst hpair, congrArg Prod.snd hpair⟩

/-- C1 counterexample: `Indexer.chunkText` on an 8-line file (fewer than 30
lines) with target 120 tokens and overlap 25 lines emits the windows
`[1,8]` and `[6,8]` — a second chunk starting after a window that already
reached the last line — instead of the single whole-file chunk the claim
requires. -/
theorem C1_chunker_windows_counterexample :
    (splitLines "l1\nl2\nl3\nl4\nl5\nl6\nl7\nl8").length = 8 ∧
    (chunkText "l1\nl2\nl3\nl4\nl5\nl6\nl7\nl8" "p" "Script" 120 25).map
      (fun c => (c.line_start, c.line_end)) = [(1, 8), (6, 8)] := by
  exact ⟨by decide, by decide⟩

/-- Witness for C1: a 2-line file is a single whole-file chunk for both
chunkers at the default parameters. -/
theorem C1_chunker_windows_witness :
    ((splitLines "a\nb").length ≤ max 30 (500 / 4)) ∧
    (∃ c, chunkFile "a\nb" "p" "Script" 500 20 = [c] ∧ c.line_start = 1 ∧
      c.line_end = (splitLines "a\nb").length) ∧
    (∃ c, chunkText "a\nb" "p" "Script" 500 20 = [c] ∧ c.line_start = 1 ∧
      c.line_end = (splitLines "a\nb").length) := by
  refine ⟨by decide, ?_, ?_⟩
  · exact (C1_chunker_windows "a\nb" "p" "Script" 500 20).2.2.1 (by decide)
  · exact (C1_chunker_windows "a\nb" "p" "Script" 500 20).2.2.2 (by decide)

/-! ## C2 — chunk keys and point identity -/

theorem hash_ne_digitChar (n : Nat) : '#' ≠ digitChar n := by
  unfold digitChar
  split <;> decide

theorem natDigitsRevGo_no_hash (b : Nat) :
    ∀ fuel n, '#' ∉ natDigitsRevGo b fuel n := by
  intro fuel
  induction fuel with
  | zero => intro n; simp [natDigitsRevGo, hash_ne_digitChar n]
  | succ f ih =>
    intro n
    by_cases h : n < b ∨ b ≤ 1 <;>
      simp [natDigitsRevGo, h, hash_ne_digitChar, ih]

theorem natToDec_no_hash (n : Nat) : '#' ∉ (natToDec n).data := by
  simp only [natToDec, natDigitsRev]
  intro h
  exact natDigitsRevGo_no_hash 10 n n (List.mem_reverse.mp h)

theorem natToHex_no_hash (n : Nat) : '#' ∉ (natToHex n).data := by
  simp only [natToHex, natDigitsRev]
  intro h
  exact natDigitsRevGo_no_hash 16 n n (List.mem_reverse.mp h)

theorem sep_append_inj (sep : Char) :
    ∀ (a b t u : List Char), sep ∉ a → sep ∉ b →
      a ++ sep :: t = b ++ sep :: u → a = b ∧ t = u := by
  intro a
  induction a with
  | nil =>
    intro b t u _ hb h
    cases b with
    | nil => simpa using h
    | cons d bs =>
      simp only [List.nil_append, List.cons_append, List.cons.injEq] at h
      exact absurd (by rw [h.1]; exact List.mem_cons_self _ _) hb
  | cons c as ih =>
    intro b t u ha hb h
    cases b with
    | nil =>
      simp only [List.cons_append, List.nil_append, List.cons.injEq] at h
      exact absurd (by rw [← h.1]; exact List.mem_cons_self _ _) ha
    | cons d bs =>
      simp only [List.cons_append, List.cons.injEq] at h
      obtain ⟨rfl, h2⟩ := h
      have hr := ih bs t u (fun hx => ha (List.mem_cons_of_mem _ hx))
        (fun hx => hb (List.mem_cons_of_mem _ hx)) h2
      exact ⟨by rw [hr.1], hr.2⟩

theorem sep_append_inj_last (sep : Char) (a b t u : List Char) (ht : sep ∉ t) (hu : sep ∉ u)
    (h : a ++ sep :: t = b ++ sep :: u) : a = b ∧ t = u := by
  have hr : t.reverse ++ sep :: a.reverse = u.reverse ++ sep :: b.reverse := by
    have hrev := congrArg List.reverse h
    simpa [List.reverse_append] using hrev
  have hmain := sep_append_inj sep t.reverse u.reverse a.reverse b.reverse
    (by simpa using ht) (by simpa using hu) hr
  constructor
  · have := congrArg List.reverse hmain.2
    simpa using this
  · have := congrArg List.reverse hmain.1
    simpa using this

theorem chunkKeyOf_data (p : String) (a e : Nat) (h : String) :
    (chunkKeyOf p a e h).data =
      (p.data ++ '#' :: ((natToDec a).data ++ '-' :: (natToDec e).data)) ++ '#' :: h.data := by
  simp [chunkKeyOf, String.data_append]

theorem chunkKeyOf_path_inj (p q : String) (a e a' e' : Nat) (h1 h2 : String)
    (hpq : p ≠ q) (hh1 : '#' ∉ h1.data) (hh2 : '#' ∉ h2.data) :
    chunkKeyOf p a e h1 ≠ chunkKeyOf q a' e' h2 := by
  intro heq
  have hdata := congrArg String.data heq
  rw [chunkKeyOf_data, chunkKeyOf_data] at hdata
  have hstep1 := sep_append_inj_last '#' _ _ _ _ hh1 hh2 hdata
  have hmid1 : '#' ∉ (natToDec a).data ++ '-' :: (natToDec e).data := by
    intro hmem
    rcases List.mem_append.mp hmem with hm | hm
    · exact natToDec_no_hash a hm
    · rcases List.mem_cons.mp hm with hm | hm
      · exact absurd hm (by decide)
      · exact natToDec_no_hash e hm
  have hmid2 : '#' ∉ (natToDec a').data ++ '-' :: (natToDec e').data := by
    intro hmem
    rcases List.mem_append.mp hmem with hm | hm
    · exact natToDec_no_hash a' hm
    · rcases List.mem_cons.mp hm with hm | hm
      · exact absurd hm (by decide)
      · exact natToDec_no_hash e' hm
  have hstep2 := sep_append_inj_last '#' _ _ _ _ hmid1 hmid2 hstep1.1
  exact hpq (by cases p; cases q; exact congrArg String.mk (by simpa using hstep2.1))

theorem chunkTextLoop_fields (lines : List String) (p kind : String) (lpc ov : Nat) :
    ∀ fuel i c, c ∈ chunkTextLoop lines p kind lpc ov fuel i →
      c.id = makePointIdFromChunkKey (chunkKeyOf p c.line_start c.line_end c.hash) ∧
      c.hash = natToHex (fnv1aJs c.text) := by
  intro fuel
  induction fuel with
  | zero => intro i c hc; simp [chunkTextLoop] at hc
  | succ f ih =>
    intro i c hc
    by_cases h : i < lines.length
    · simp only [chunkTextLoop, if_pos h, List.mem_cons] at hc
      rcases hc with rfl | hc
      · exact ⟨rfl, rfl⟩
      · exact ih _ c hc
    · simp [chunkTextLoop, h] at hc

/-- **C2 (amended).** Every chunk emitted by `Indexer.chunkText` has point id
`makePointIdFromChunkKey` (UUID v5 under the single fixed namespace) of
exactly the key `"<absPath>#<lineStart>-<lineEnd>#<hex>"`, where the hex
fingerprint is the rendered value of the *JS-double* FNV-1a-style recurrence
(seed 2166136261, multiplier 16777619) the source computes — not exact 32-bit
FNV-1a, from which it diverges once an intermediate product exceeds 2^53;
the point id is a pure function of the chunk key, identical inputs yield
identical chunks, keys and ids, and chunks of files at different absolute
paths always get distinct keys, whatever their text. -/
theorem C2_chunk_key_identity :
    (∀ text p kind t o, ∀ c ∈ chunkText text p kind t o,
        c.id = makePointIdFromChunkKey (chunkKeyOf p c.line_start c.line_end c.hash) ∧
        c.hash = natToHex (fnv1aJs c.text))
  ∧ (∀ p q a e a' e' h1 h2, p ≠ q → '#' ∉ (h1 : String).data → '#' ∉ (h2 : String).data →
        chunkKeyOf p a e h1 ≠ chunkKeyOf q a' e' h2)
  ∧ (∀ text1 text2 p q kind1 kind2 t1 o1 t2 o2, p ≠ q →
        ∀ c1 ∈ chunkText text1 p kind1 t1 o1, ∀ c2 ∈ chunkText text2 q kind2 t2 o2,
          chunkKeyOf p c1.line_start c1.line_end c1.hash ≠
            chunkKeyOf q c2.line_start c2.line_end c2.hash) := by
  refine ⟨?_, ?_, ?_⟩
  · intro text p kind t o c hc
    exact chunkTextLoop_fields _ _ _ _ _ _ _ c hc
  · intro p q a e a' e' h1 h2 hpq hh1 hh2
    exact chunkKeyOf_path_inj p q a e a' e' h1 h2 hpq hh1 hh2
  · intro text1 text2 p q kind1 kind2 t1 o1 t2 o2 hpq c1 hc1 c2 hc2
    have hf1 := (chunkTextLoop_fields _ _ _ _ _ _ _ c1 hc1).2
    have hf2 := (chunkTextLoop_fields _ _ _ _ _ _ _ c2 hc2).2
    exact chunkKeyOf_path_inj p q _ _ _ _ _ _ hpq (hf1 ▸ natToHex_no_hash _)
      (hf2 ▸ natToHex_no_hash _)

/-- C2 counterexample: on the one-chunk file `"abc"`, the fingerprint the
source computes (the JS double-precision recurrence, value `0x1a47e90c` =
440920332) differs from exact 32-bit FNV-1a of the same text (440920331), so
the chunk key's fingerprint is not FNV-1a as claimed. -/
theorem C2_chunk_key_identity_counterexample :
    (chunkText "abc" "/p" "Script" 500 20).map (fun c => c.hash) =
      [natToHex (fnv1aJs "abc")] ∧
    fnv1aJs "abc" = 440920332 ∧ fnv1aExact "abc" = 440920331 := by
  exact ⟨by decide, by decide, by decide⟩

/-- Witness for C2: two concrete chunk keys at distinct absolute paths are
distinct even with identical ranges and fingerprints. -/
theorem C2_chunk_key_identity_witness :
    ("C:/a/S.cs" : String) ≠ "C:/b/S.cs" ∧
    chunkKeyOf "C:/a/S.cs" 1 30 (natToHex 255) ≠ chunkKeyOf "C:/b/S.cs" 1 30 (natToHex 255) := by
  refine ⟨by decide, ?_⟩
  exact C2_chunk_key_identity.2.1 "C:/a/S.cs" "C:/b/S.cs" 1 30 1 30 (natToHex 255) (natToHex 255)
    (by decide) (natToHex_no_hash 255) (natToHex_no_hash 255)

/-! ## C5 — snapshot digest -/

theorem foldl_append_data (l : List String) :
    ∀ acc : String, (l.foldl (fun r s => r ++ s) acc).data =
      acc.data ++ (l.map String.data).flatten := by
  induction l with
  | nil => intro acc; simp
  | cons s l ih =>
    intro acc
    simp only [List.foldl_cons, ih, List.map_cons, List.flatten_cons, String.data_append]
    simp [List.append_assoc]

theorem join_data (l : List String) : (String.join l).data = (l.map String.data).flatten := by
  have h := foldl_append_data l ""
  simpa [String.join] using h

theorem snapshotLine_data (g v : String) :
    (g ++ ":" ++ v ++ "\n").data = (g.data ++ ':' :: v.data) ++ '\n' :: [] := by
  simp [String.data_append, List.append_assoc]

theorem encPairs_inj :
    ∀ l1 l2 : List (String × String),
      (∀ gv ∈ l1, ':' ∉ (gv.1 : String).data ∧ '\n' ∉ (gv.1 : String).data ∧
        '\n' ∉ (gv.2 : String).data) →
      (∀ gv ∈ l2, ':' ∉ (gv.1 : String).data ∧ '\n' ∉ (gv.1 : String).data ∧
        '\n' ∉ (gv.2 : String).data) →
      ((l1.map (fun gv => gv.1 ++ ":" ++ gv.2 ++ "\n")).map String.data).flatten =
        ((l2.map (fun gv => gv.1 ++ ":" ++ gv.2 ++ "\n")).map String.data).flatten →
      l1 = l2 := by
  intro l1
  induction l1 with
  | nil =>
    intro l2 _ _ h
    cases l2 with
    | nil => rfl
    | cons gv l2 =>
      simp only [List.map_cons, List.map_nil, List.flatten_cons, List.flatten_nil,
        snapshotLine_data] at h
      simp at h
  | cons gv l1 ih =>
    intro l2 h1 h2 h
    cases l2 with
    | nil =>
      simp only [List.map_cons, List.map_nil, List.flatten_cons, List.flatten_nil,
        snapshotLine_data] at h
      simp at h
    | cons gw l2 =>
      simp only [List.map_cons, List.flatten_cons, snapshotLine_data] at h
      have hgv := h1 gv (by simp)
      have hgw := h2 gw (by simp)
      have h' : (gv.1.data ++ ':' :: gv.2.data) ++ '\n' ::
          ((l1.map (fun gv => gv.1 ++ ":" ++ gv.2 ++ "\n")).map String.data).flatten =
          (gw.1.data ++ ':' :: gw.2.data) ++ '\n' ::
          ((l2.map (fun gv => gv.1 ++ ":" ++ gv.2 ++ "\n")).map String.data).flatten := by
        simpa [List.append_assoc] using h
      have hline : ('\n' : Char) ∉ gv.1.data ++ ':' :: gv.2.data := by
        intro hm
        rcases List.mem_append.mp hm with hm | hm
        · exact hgv.2.1 hm
        · rcases List.mem_cons.mp hm with hm | hm
          · exact absurd hm (by decide)
          · exact hgv.2.2 hm
      have hline2 : ('\n' : Char) ∉ gw.1.data ++ ':' :: gw.2.data := by
        intro hm
        rcases List.mem_append.mp hm with hm | hm
        · exact hgw.2.1 hm
        · rcases List.mem_cons.mp hm with hm | hm
          · exact absurd hm (by decide)
          · exact hgw.2.2 hm
      have hsplit := sep_append_inj '\n' _ _ _ _ hline hline2 h'
      have hsplit2 := sep_append_inj ':' _ _ _ _ hgv.1 hgw.1 hsplit.1
      have hg : gv.1 = gw.1 := by
        cases hgv1 : gv.1; cases hgw1 : gw.1
        exact congrArg String.mk (by rw [hgv1, hgw1] at hsplit2; exact hsplit2.1)
      have hv : gv.2 = gw.2 := by
        cases hgv2 : gv.2; cases hgw2 : gw.2
        exact congrArg String.mk (by rw [hgv2, hgw2] at hsplit2; exact hsplit2.2)
      have hrest := ih l2 (fun x hx => h1 x (by simp [hx])) (fun x hx => h2 x (by simp [hx]))
        (by simpa using hsplit.2)
      rw [hrest, Prod.ext hg hv]

/-- **C5 (amended).** The snapshot is the SHA-256 hex digest of the exact
byte string `guid + ":" + ver + "\n"` per live (`deleted=0`) asset sorted by
guid, where `ver` is the stored hash when present and otherwise
`"<mtime or 0>:<size or 0>"`; the digest input of an empty catalog is empty;
the snapshot is a pure function of the live `(guid, version)` pairs (in guid
order); and the digest input determines those pairs whenever guids contain
neither `:` nor a newline and versions contain no newline — so at the level
of the digest *input* the snapshot changes iff the live pair list changes,
while at the SHA-256 level equality of inputs still forces equal hashes (the
converse of the claim's "iff" fails: distinct pair sets can collide on the
digest input when a guid contains `:`, see the counterexample). -/
theorem C5_snapshot_digest :
    (snapshotInput Db.empty = "" ∧
      computeSnapshotFromAssets Db.empty = (sha256Hex "", 0))
  ∧ (∀ db1 db2 : Db, livePairs db1 = livePairs db2 →
      computeSnapshotFromAssets db1 = computeSnapshotFromAssets db2)
  ∧ (∀ db1 db2 : Db,
      (∀ gv ∈ livePairs db1, ':' ∉ (gv.1 : String).data ∧ '\n' ∉ (gv.1 : String).data ∧
        '\n' ∉ (gv.2 : String).data) →
      (∀ gv ∈ livePairs db2, ':' ∉ (gv.1 : String).data ∧ '\n' ∉ (gv.1 : String).data ∧
        '\n' ∉ (gv.2 : String).data) →
      snapshotInput db1 = snapshotInput db2 → livePairs db1 = livePairs db2) := by
  refine ⟨⟨rfl, rfl⟩, ?_, ?_⟩
  · intro db1 db2 h
    have hinput : snapshotInput db1 = snapshotInput db2 := by
      simp only [snapshotInput, h]
    have hlen : (liveSortedRows db1).length = (liveSortedRows db2).length := by
      have h1 : (livePairs db1).length = (livePairs db2).length := by rw [h]
      simpa [livePairs] using h1
    simp only [computeSnapshotFromAssets, hinput, hlen]
  · intro db1 db2 h1 h2 h
    have hdata : ((( livePairs db1).map (fun gv => gv.1 ++ ":" ++ gv.2 ++ "\n")).map
        String.data).flatten =
        (((livePairs db2).map (fun gv => gv.1 ++ ":" ++ gv.2 ++ "\n")).map String.data).flatten := by
      have hd := congrArg String.data h
      simpa [snapshotInput, join_data] using hd
    exact encPairs_inj _ _ h1 h2 hdata

/-- C5 counterexample: the catalogs `[{guid "a:b", hash "c"}]` and
`[{guid "a", hash "b:c"}]` have different live `(guid, version)` sets but the
identical digest input `"a:b:c\n"`, hence identical `snapshot_sha` — the
claimed "changes iff" fails in the only-if direction. -/
theorem C5_snapshot_digest_counterexample :
    livePairs ⟨[⟨"a:b", "p", none, none, none, some "c", false, 0⟩], [], []⟩ ≠
      livePairs ⟨[⟨"a", "p", none, none, none, some "b:c", false, 0⟩], [], []⟩ ∧
    snapshotInput ⟨[⟨"a:b", "p", none, none, none, some "c", false, 0⟩], [], []⟩ = "a:b:c\n" ∧
    computeSnapshotFromAssets ⟨[⟨"a:b", "p", none, none, none, some "c", false, 0⟩], [], []⟩ =
      computeSnapshotFromAssets ⟨[⟨"a", "p", none, none, none, some "b:c", false, 0⟩], [], []⟩ := by
  refine ⟨by decide, by decide, ?_⟩
  have h : snapshotInput ⟨[⟨"a:b", "p", none, none, none, some "c", false, 0⟩], [], []⟩ =
      snapshotInput ⟨[⟨"a", "p", none, none, none, some "b:c", false, 0⟩], [], []⟩ := by decide
  have hlen : (liveSortedRows ⟨[⟨"a:b", "p", none, none, none, some "c", false, 0⟩], [], []⟩).length =
      (liveSortedRows ⟨[⟨"a", "p", none, none, none, some "b:c", false, 0⟩], [], []⟩).length := by
    decide
  simp only [computeSnapshotFromAssets, h, hlen]

/-- Witness for C5: on colon-free guids the digest input determines the live
pairs. -/
theorem C5_snapshot_digest_witness :
    livePairs ⟨[⟨"g1", "p", none, some 3, some 7, none, false, 0⟩], [], []⟩ =
      livePairs ⟨[⟨"g1", "q", none, some 3, some 7, none, true, 0⟩,
                  ⟨"g1", "p", none, some 3, some 7, none, false, 0⟩], [], []⟩ := by
  refine C5_snapshot_digest.2.2 _ _ ?_ ?_ ?_
  · decide
  · decide
  · decide

/-! ## C6 — upsert semantics -/

theorem lookupAsset_map_guid (l : List AssetRow) (f : AssetRow → AssetRow)
    (hf : ∀ r, (f r).guid = r.guid) (g : String) :
    lookupAsset (l.map f) g = (lookupAsset l g).map f := by
  simp only [lookupAsset, List.find?_map]
  have hp : ((fun r => decide (r.guid = g)) ∘ f) = (fun r => decide (r.guid = g)) := by
    funext r
    simp [Function.comp, hf]
  rw [hp]

theorem lookupAsset_guid {l : List AssetRow} {g : String} {r : AssetRow}
    (h : lookupAsset l g = some r) : r.guid = g := by
  have := List.find?_some h
  simpa using this

theorem upsertMerge_guid (r : AssetRow) (p : String) (k : Option String) (mt sz : Option Int)
    (h : Option String) (ts : Int) : (upsertMerge r p k mt sz h ts).guid = r.guid := rfl

theorem upsertAssetsOne_lookup_self (db : Db) (it : UpsertItem) (ts : Int) (g : String)
    (hg : coerceGuid it = some g) (hne : ¬(g = "" ∨ coercePath it = "")) :
    lookupAsset (upsertAssetsOne db it ts).assets g =
      some (match lookupAsset db.assets g with
        | some r => upsertMerge r (coercePath it) it.kind it.mtime it.size (coerceHash it) ts
        | none => ⟨g, coercePath it, it.kind, it.mtime, it.size, coerceHash it, false, ts⟩) := by
  simp only [upsertAssetsOne, hg]
  rw [if_neg hne]
  by_cases hany : db.assets.any (fun r => r.guid = g)
  · rw [if_pos hany]
    rw [lookupAsset_map_guid _ _
      (by intro r; by_cases hr : r.guid = g <;> simp [upsertMerge, hr]) g]
    have hsome : (db.assets.find? (fun r => r.guid = g)).isSome := by
      rw [List.find?_isSome]
      simpa [List.any_eq_true] using hany
    obtain ⟨r, hr⟩ := Option.isSome_iff_exists.mp hsome
    have hr' : lookupAsset db.assets g = some r := hr
    have hrg : r.guid = g := lookupAsset_guid hr'
    rw [hr']
    simp [hrg]
  · rw [if_neg hany]
    have hnone : lookupAsset db.assets g = none := by
      simp only [lookupAsset, List.find?_eq_none]
      intro x hx
      simp only [List.any_eq_true] at hany
      exact fun hpx => hany ⟨x, hx, hpx⟩
    show lookupAsset (db.assets ++ [_]) g = _
    rw [hnone, lookupAsset, List.find?_append]
    have : List.find? (fun r => r.guid = g) db.assets = none := hnone
    rw [this]
    simp

theorem upsertAssetsOne_lookup_other (db : Db) (it : UpsertItem) (ts : Int) (g : String)
    (hother : ∀ g', coerceGuid it = some g' → g' ≠ g) :
    lookupAsset (upsertAssetsOne db it ts).assets g = lookupAsset db.assets g := by
  rcases hcg : coerceGuid it with _ | g'
  · simp [upsertAssetsOne, hcg]
  have hgg : g' ≠ g := hother g' hcg
  simp only [upsertAssetsOne, hcg]
  by_cases hskip : g' = "" ∨ coercePath it = ""
  · rw [if_pos hskip]
  · rw [if_neg hskip]
    by_cases hany : db.assets.any (fun r => r.guid = g')
    · rw [if_pos hany]
      rw [lookupAsset_map_guid _ _
        (by intro r; by_cases hr : r.guid = g' <;> simp [upsertMerge, hr]) g]
      cases hl : lookupAsset db.assets g with
      | none => rfl
      | some r =>
        have hrg : r.guid = g := lookupAsset_guid hl
        have : ¬ r.guid = g' := by rw [hrg]; exact fun hc => hgg hc.symm
        simp [this]
    · rw [if_neg hany]
      show lookupAsset (db.assets ++ [_]) g = _
      rw [lookupAsset, List.find?_append]
      have hsing : List.find? (fun r => r.guid = g)
          [(⟨g', coercePath it, it.kind, it.mtime, it.size, coerceHash it, false, ts⟩ : AssetRow)] =
          none := by
        simp [List.find?_singleton, hgg]
      rw [hsing]
      simp [lookupAsset]

theorem upsertAssetsOne_deps (db : Db) (it : UpsertItem) (ts : Int) (g : String)
    (hg : coerceGuid it = some g) (hne : ¬(g = "" ∨ coercePath it = "")) :
    (upsertAssetsOne db it ts).assetDeps = insertDeps db.assetDeps g it.deps := by
  simp only [upsertAssetsOne, hg]
  rw [if_neg hne]

theorem foldl_insertDep_length (g : String) :
    ∀ (l : List String) (tbl : List (String × String)),
      (l.foldl (fun t d => if (g, d) ∈ t then t else t ++ [(g, d)]) tbl).length ≤
        tbl.length + l.length := by
  intro l
  induction l with
  | nil => intro tbl; simp
  | cons d l ih =>
    intro tbl
    by_cases h : (g, d) ∈ tbl
    · simp only [List.foldl_cons, if_pos h, List.length_cons]
      have := ih tbl
      omega
    · simp only [List.foldl_cons, if_neg h, List.length_cons]
      have := ih (tbl ++ [(g, d)])
      simp only [List.length_append, List.length_singleton] at this
      omega

theorem insertDeps_length (tbl : List (String × String)) (g : String) (deps : List String) :
    (insertDeps tbl g deps).length ≤ tbl.length + 200 := by
  have h := foldl_insertDep_length g (deps.take 200) tbl
  have h2 : (deps.take 200).length ≤ 200 := by
    simp [List.length_take]
  simp only [insertDeps]
  omega

theorem foldl_insertDep_nodup (g : String) :
    ∀ (l : List String) (tbl : List (String × String)), tbl.Nodup →
      (l.foldl (fun t d => if (g, d) ∈ t then t else t ++ [(g, d)]) tbl).Nodup := by
  intro l
  induction l with
  | nil => intro tbl h; simpa using h
  | cons d l ih =>
    intro tbl h
    by_cases hm : (g, d) ∈ tbl
    · simp only [List.foldl_cons, if_pos hm]
      exact ih tbl h
    · simp only [List.foldl_cons, if_neg hm]
      refine ih _ ?_
      rw [List.nodup_append]
      exact ⟨h, List.nodup_singleton _, by simpa [List.disjoint_singleton] using hm⟩

theorem insertDeps_nodup (tbl : List (String × String)) (g : String) (deps : List String)
    (h : tbl.Nodup) : (insertDeps tbl g deps).Nodup :=
  foldl_insertDep_nodup g (deps.take 200) tbl h

/-- **C6 (amended).** `upsertAssets` runs each row through the coercions
`guid ?? GUID ?? id` and `sha256` preferred over `hash`; a row is skipped
(writing nothing) exactly when its coerced guid is absent or the empty
string, or its coerced path is the empty string — a row whose `path` is
absent or not a string is *not* skipped: it is written with the placeholder
path `"(unknown)"`.  For a row that is not skipped, on guid conflict `path`
is overwritten unconditionally while `kind`/`mtime`/`size`/`hash` are
overwritten only when the incoming value is non-null, `deleted` is reset to 0
and `updated_ts` set to `ts`; rows with other guids are untouched; and at
most 200 `(guid, dep)` dependency rows are inserted, ignoring duplicates. -/
theorem C6_upsert_assets (db : Db) (it : UpsertItem) (ts : Int) :
    (coerceGuid it = none → upsertAssetsOne db it ts = db)
  ∧ (∀ g, coerceGuid it = some g → (g = "" ∨ coercePath it = "") →
      upsertAssetsOne db it ts = db)
  ∧ (∀ g, coerceGuid it = some g → ¬(g = "" ∨ coercePath it = "") →
      (lookupAsset (upsertAssetsOne db it ts).assets g =
        some (match lookupAsset db.assets g with
          | some r => upsertMerge r (coercePath it) it.kind it.mtime it.size (coerceHash it) ts
          | none => ⟨g, coercePath it, it.kind, it.mtime, it.size, coerceHash it, false, ts⟩)) ∧
      (∀ g', g' ≠ g →
        lookupAsset (upsertAssetsOne db it ts).assets g' = lookupAsset db.assets g') ∧
      (upsertAssetsOne db it ts).assetDeps = insertDeps db.assetDeps g it.deps ∧
      (upsertAssetsOne db it ts).assetDeps.length ≤ db.assetDeps.length + 200 ∧
      (db.assetDeps.Nodup → (upsertAssetsOne db it ts).assetDeps.Nodup)) := by
  refine ⟨?_, ?_, ?_⟩
  · intro h
    simp [upsertAssetsOne, h]
  · intro g hg hf
    simp only [upsertAssetsOne, hg]
    rw [if_pos hf]
  · intro g hg hne
    refine ⟨upsertAssetsOne_lookup_self db it ts g hg hne, ?_, upsertAssetsOne_deps db it ts g hg hne, ?_, ?_⟩
    · intro g' hgg
      exact upsertAssetsOne_lookup_other db it ts g'
        (fun gx hgx => by rw [hg] at hgx; cases hgx; exact fun hc => hgg (hc ▸ rfl))
    · rw [upsertAssetsOne_deps db it ts g hg hne]
      exact insertDeps_length db.assetDeps g it.deps
    · intro hnd
      rw [upsertAssetsOne_deps db it ts g hg hne]
      exact insertDeps_nodup db.assetDeps g it.deps hnd

/-- C6 counterexample: a row with a guid but no `path` field at all is *not*
skipped — it is inserted with path `"(unknown)"` — contradicting "skips rows
missing guid or path (writing nothing for them)". -/
theorem C6_upsert_assets_counterexample :
    ({ guid := some "g" } : UpsertItem).path = none ∧
    (upsertAssets Db.empty [{ guid := some "g" }] 5).assets =
      [⟨"g", "(unknown)", none, none, none, none, false, 5⟩] ∧
    upsertAssets Db.empty [{ guid := some "g" }] 5 ≠ Db.empty := by
  exact ⟨rfl, by decide, by decide⟩

/-- Witness for C6: a conflict upsert overwrites `path` unconditionally,
takes `sha256` over `hash`, keeps null fields, resets `deleted` and stamps
`updated_ts`. -/
theorem C6_upsert_assets_witness :
    lookupAsset (upsertAssetsOne
        ⟨[⟨"g", "old", some "K", none, some 1, some "H", true, 0⟩], [], []⟩
        { guid := some "g", path := some "newp", mtime := some 5,
          hash := some "H2", sha256 := some "S" } 9).assets "g" =
      some ⟨"g", "newp", some "K", some 5, some 1, some "S", false, 9⟩ := by
  have h := upsertAssetsOne_lookup_self
    ⟨[⟨"g", "old", some "K", none, some 1, some "H", true, 0⟩], [], []⟩
    { guid := some "g", path := some "newp", mtime := some 5,
      hash := some "H2", sha256 := some "S" } 9 "g" rfl (by decide)
  have hthm := C6_upsert_assets
    ⟨[⟨"g", "old", some "K", none, some 1, some "H", true, 0⟩], [], []⟩
    { guid := some "g", path := some "newp", mtime := some 5,
      hash := some "H2", sha256 := some "S" } 9
  have h2 := (hthm.2.2 "g" rfl (by decide)).1
  exact h2.trans (by decide)

/-! ## C3 — the modified classification -/

theorem pass1_eq (live : List AssetRow) (items : List ManifestItem) :
    pass1 live items =
      { seen := (items.filter (fun it => !it.isFolder)).map (fun it => it.guid),
        added := (items.filter (addedPred live)).length,
        moved := (items.filter (movedPred live)).length,
        modified := (items.filter (modifiedPred live)).length,
        toUpsert := items.filter (upsertPred live),
        toReindex := items.filter (reindexPred live),
        toMoved := (items.filter (movedPred live)).map
          (fun it => (it.guid, movedOldPath live it, it.path, it.kind)),
        modDeletes := (items.filter (modifiedPred live)).map
          (fun it => normSlash it.path) } := by
  induction items with
  | nil => rfl
  | cons it rest ih =>
    simp only [pass1, ih]
    by_cases hf : it.isFolder
    · simp [hf, List.filter_cons, addedPred, movedPred, modifiedPred, upsertPred, reindexPred]
    · rcases hl : lookupAsset live it.guid with _ | row
      · by_cases hts : isTextual it.kind it.path || isScene it.path
        · simp [hf, hl, hts, List.filter_cons, addedPred, movedPred, modifiedPred,
            upsertPred, reindexPred]
        · simp [hf, hl, hts, List.filter_cons, addedPred, movedPred, modifiedPred,
            upsertPred, reindexPred]
      · by_cases hp : row.path = it.path
        · by_cases hc : changedWitness row it
          · by_cases hts : isTextual it.kind it.path || isScene it.path
            · simp [hf, hl, hp, hc, hts, List.filter_cons, addedPred, movedPred,
                modifiedPred, upsertPred, reindexPred]
            · simp [hf, hl, hp, hc, hts, List.filter_cons, addedPred, movedPred,
                modifiedPred, upsertPred, reindexPred]
          · simp [hf, hl, hp, hc, List.filter_cons, addedPred, movedPred,
              modifiedPred, upsertPred, reindexPred]
        · by_cases hts : isTextual it.kind it.path || isScene it.path
          · simp [hf, hl, hp, hts, List.filter_cons, addedPred, movedPred,
              modifiedPred, upsertPred, reindexPred, movedOldPath]
          · simp [hf, hl, hp, hts, List.filter_cons, addedPred, movedPred,
              modifiedPred, upsertPred, reindexPred, movedOldPath]

/-- **C3 (amended).** For a non-folder manifest item whose guid has a live
row with the same path, the reconciler marks it modified exactly when the
code's changed witness fires: the hashes differ while both are truthy, **or
else** the row has no stored hash, the item carries a numeric `mtime`, and
the mtimes differ — the second disjunct does *not* require the item to lack
a hash, so an item that gains a hash over a hash-less row is classified by
the mtime test, and a row missing both hash and mtime is marked modified by
any numeric `mtime` alone, not only "when a hash appears".  On modification
the run immediately records `delete_by_path` on the normalized new path (in
arrival order) and schedules a reindex exactly for textual (script) and
scene items. -/
theorem C3_modified_classification (db : Db) (items : List ManifestItem) (now : Int) :
    ((reconcile db items now).stats.modified =
       (items.filter (modifiedPred (db.assets.filter (fun r => !r.deleted)))).length) ∧
    ((reconcile db items now).modDeletes =
       (items.filter (modifiedPred (db.assets.filter (fun r => !r.deleted)))).map
         (fun it => normSlash it.path)) ∧
    ∀ it ∈ items, modifiedPred (db.assets.filter (fun r => !r.deleted)) it →
      (isTextual it.kind it.path → it ∈ (reconcile db items now).reindexScripts) ∧
      (isScene it.path → it ∈ (reconcile db items now).reindexScenes) ∧
      (¬ isTextual it.kind it.path → ¬ isScene it.path →
        it ∉ (reconcile db items now).reindexScripts ∧
        it ∉ (reconcile db items now).reindexScenes) := by
  have hp := pass1_eq (db.assets.filter (fun r => !r.deleted)) items
  refine ⟨by simp only [reconcile, hp], by simp only [reconcile, hp], ?_⟩
  intro it hmem hmod
  have hre : (isTextual it.kind it.path || isScene it.path) = true →
      reindexPred (db.assets.filter (fun r => !r.deleted)) it = true := by
    intro h
    simp [reindexPred, hmod, h]
  refine ⟨?_, ?_, ?_⟩
  · intro htex
    simp only [reconcile, hp, List.mem_filter]
    exact ⟨⟨hmem, hre (by simp [htex])⟩, htex⟩
  · intro hsc
    simp only [reconcile, hp, List.mem_filter]
    exact ⟨⟨hmem, hre (by simp [hsc])⟩, hsc⟩
  · intro htex hsc
    constructor
    · intro hin
      simp only [reconcile, hp, List.mem_filter] at hin
      exact htex hin.2
    · intro hin
      simp only [reconcile, hp, List.mem_filter] at hin
      exact hsc hin.2

/-- C3 counterexample: a live row with no stored hash and mtime 3, against an
item carrying hash "H" and mtime 5 on the same path, is classified modified
by the code (the mtime disjunct fires although the item *has* a hash), while
the claim's test — "`mtime` differs when neither side has hashes" — says it
is not modified. -/
theorem C3_modified_classification_counterexample :
    (reconcile ⟨[⟨"g", "p", none, some 3, none, none, false, 0⟩], [], []⟩
       [{ guid := "g", path := "p", mtime := some 5, hash := some "H" }] 10).stats.modified
      = 1 ∧
    (([({ guid := "g", path := "p", mtime := some 5, hash := some "H" } : ManifestItem)]).filter
       (specModifiedPred [⟨"g", "p", none, some 3, none, none, false, 0⟩])).length = 0 := by
  exact ⟨by decide, by decide⟩

/-- Witness for C3 at a concrete modified script item. -/
theorem C3_modified_classification_witness :
    (reconcile ⟨[⟨"g", "s.cs", none, none, none, some "A", false, 0⟩], [], []⟩
       [{ guid := "g", path := "s.cs", hash := some "B" }] 10).stats.modified =
      ([({ guid := "g", path := "s.cs", hash := some "B" } : ManifestItem)].filter
        (modifiedPred (((⟨[⟨"g", "s.cs", none, none, none, some "A", false, 0⟩], [], []⟩ : Db)).assets.filter
          (fun r => !r.deleted)))).length :=
  (C3_modified_classification
    ⟨[⟨"g", "s.cs", none, none, none, some "A", false, 0⟩], [], []⟩
    [{ guid := "g", path := "s.cs", hash := some "B" }] 10).1

/-! ## C4 — reconciler idempotence -/

theorem upsertScene_assets (db : Db) (g p : String) (ts : Int) :
    (upsertScene db g p ts).assets = db.assets := by
  unfold upsertScene
  split <;> rfl

theorem sceneCond_foldl_assets (ts : Int) :
    ∀ (l : List ManifestItem) (d : Db),
      (l.foldl (fun d it => if strEndsWith it.path ".unity" && it.guid ≠ "" then
          upsertScene d it.guid it.path ts else d) d).assets = d.assets := by
  intro l
  induction l with
  | nil => intro d; rfl
  | cons x l ih =>
    intro d
    simp only [List.foldl_cons]
    rw [ih]
    split
    · exact upsertScene_assets d x.guid x.path ts
    · rfl

theorem applyImportedBatch_assets (db : Db) (its : List ManifestItem) (ts : Int) :
    (applyImportedBatch db its ts).assets =
      (upsertAssets db (its.map manifestToUpsert) ts).assets := by
  unfold applyImportedBatch
  exact sceneCond_foldl_assets ts its _

theorem applySceneSaved_assets (db : Db) (sc : ManifestItem) (ts : Int) :
    (applySceneSaved db sc ts).assets =
      (upsertAssetsOne db { guid := some sc.guid, path := some sc.path,
                            kind := some "Scene" } ts).assets := by
  unfold applySceneSaved
  rw [upsertScene_assets]
  rfl

theorem markDeleted_cons (db : Db) (g : String) (gs : List String) (ts : Int) :
    markDeleted db (g :: gs) ts =
      markDeleted { db with assets := db.assets.map (fun r =>
        if r.guid = g then { r with deleted := true, updated_ts := ts } else r) } gs ts := rfl

theorem lookupAsset_markDeleted (ts : Int) (g : String) :
    ∀ (gs : List String) (db : Db), g ∉ gs →
      lookupAsset (markDeleted db gs ts).assets g = lookupAsset db.assets g := by
  intro gs
  induction gs with
  | nil => intro db _; rfl
  | cons g' gs ih =>
    intro db hg
    rw [markDeleted_cons, ih _ (fun h => hg (List.mem_cons_of_mem _ h))]
    rw [lookupAsset_map_guid _ _ (fun r => by split <;> rfl) g]
    rcases hl : lookupAsset db.assets g with _ | r
    · rfl
    · have hrg : r.guid = g := lookupAsset_guid hl
      have hne : ¬ r.guid = g' := by
        rw [hrg]; exact fun h => hg (h ▸ List.mem_cons_self _ _)
      simp [hne]

theorem markDeleted_live (ts : Int) :
    ∀ (gs : List String) (db : Db) (r : AssetRow),
      r ∈ (markDeleted db gs ts).assets → r.deleted = false →
      r ∈ db.assets ∧ r.guid ∉ gs := by
  intro gs
  induction gs with
  | nil => intro db r hr _; exact ⟨hr, by simp⟩
  | cons g' gs ih =>
    intro db r hr hd
    rw [markDeleted_cons] at hr
    obtain ⟨hr', hng⟩ := ih _ r hr hd
    obtain ⟨r0, hr0, heq⟩ := List.mem_map.mp hr'
    by_cases h : r0.guid = g'
    · rw [if_pos h] at heq
      have hdel : r.deleted = true := by rw [← heq]
      rw [hdel] at hd
      cases hd
    · rw [if_neg h] at heq
      subst heq
      refine ⟨hr0, ?_⟩
      intro hmem
      rcases List.mem_cons.mp hmem with h1 | h1
      · exact h h1
      · exact hng h1

theorem manifestToUpsert_coerce (it : ManifestItem) :
    coerceGuid (manifestToUpsert it) = some it.guid ∧
    coercePath (manifestToUpsert it) = it.path ∧
    coerceHash (manifestToUpsert it) = it.hash ∧
    (manifestToUpsert it).kind = it.kind ∧
    (manifestToUpsert it).mtime = it.mtime ∧
    (manifestToUpsert it).size = it.size :=
  ⟨rfl, rfl, rfl, rfl, rfl, rfl⟩

theorem upsertAssetsOne_live_sub (S : String → Prop) (db : Db) (it : UpsertItem) (ts : Int)
    (hdb : ∀ r ∈ db.assets, r.deleted = false → S r.guid)
    (hit : ∀ g, coerceGuid it = some g → S g) :
    ∀ r ∈ (upsertAssetsOne db it ts).assets, r.deleted = false → S r.guid := by
  intro r hr hd
  rcases hcg : coerceGuid it with _ | g
  · rw [upsertAssetsOne, hcg] at hr
    exact hdb r hr hd
  · rw [upsertAssetsOne, hcg] at hr
    simp only at hr
    by_cases hsk : g = "" ∨ coercePath it = ""
    · rw [if_pos hsk] at hr
      exact hdb r hr hd
    · rw [if_neg hsk] at hr
      by_cases hany : db.assets.any (fun r => r.guid = g)
      · rw [if_pos hany] at hr
        obtain ⟨r0, hr0, heq⟩ := List.mem_map.mp hr
        by_cases hg0 : r0.guid = g
        · rw [if_pos hg0] at heq
          have : r.guid = g := by rw [← heq, upsertMerge_guid, hg0]
          rw [this]
          exact hit g hcg
        · rw [if_neg hg0] at heq
          subst heq
          exact hdb r0 hr0 hd
      · rw [if_neg hany] at hr
        rcases List.mem_append.mp hr with h1 | h1
        · exact hdb r h1 hd
        · have : r = ⟨g, coercePath it, it.kind, it.mtime, it.size, coerceHash it,
              false, ts⟩ := by simpa using h1
          rw [this]
          exact hit g hcg

theorem upsertAssets_live_sub (S : String → Prop) (ts : Int) :
    ∀ (l : List UpsertItem) (db : Db),
      (∀ x ∈ l, ∀ g, coerceGuid x = some g → S g) →
      (∀ r ∈ db.assets, r.deleted = false → S r.guid) →
      ∀ r ∈ (upsertAssets db l ts).assets, r.deleted = false → S r.guid := by
  intro l
  induction l with
  | nil => intro db _ hdb; exact hdb
  | cons x l ih =>
    intro db hl hdb
    exact ih _ (fun y hy => hl y (List.mem_cons_of_mem _ hy))
      (upsertAssetsOne_live_sub S db x ts hdb (hl x (List.mem_cons_self _ _)))

theorem sceneFold_live_sub (S : String → Prop) (ts : Int) :
    ∀ (l : List ManifestItem) (db : Db),
      (∀ x ∈ l, S x.guid) →
      (∀ r ∈ db.assets, r.deleted = false → S r.guid) →
      ∀ r ∈ (l.foldl (fun d sc => applySceneSaved d sc ts) db).assets,
        r.deleted = false → S r.guid := by
  intro l
  induction l with
  | nil => intro db _ hdb; exact hdb
  | cons x l ih =>
    intro db hl hdb
    simp only [List.foldl_cons]
    refine ih _ (fun y hy => hl y (List.mem_cons_of_mem _ hy)) ?_
    intro r hr hd
    rw [applySceneSaved_assets] at hr
    refine upsertAssetsOne_live_sub S db _ ts hdb ?_ r hr hd
    intro g hg
    have hgx : x.guid = g := by
      have : some x.guid = some g := hg
      exact Option.some.inj this
    exact hgx ▸ hl x (List.mem_cons_self _ _)

theorem changedWitness_merge_self (old : AssetRow) (it : ManifestItem) (ts : Int) :
    changedWitness (upsertMerge old it.path it.kind it.mtime it.size it.hash ts) it = false := by
  rcases hh : it.hash with _ | h
  · rcases ho : old.hash with _ | x
    · rcases hm : it.mtime with _ | m <;>
        simp [changedWitness, upsertMerge, optTruthy, hh, ho, hm]
    · simp [changedWitness, upsertMerge, optTruthy, hh, ho]
  · simp [changedWitness, upsertMerge, optTruthy, hh]

theorem goodRow_merge_self (old : AssetRow) (it : ManifestItem) (ts : Int) :
    goodRow it (upsertMerge old it.path it.kind it.mtime it.size it.hash ts) = true := by
  unfold goodRow
  rw [changedWitness_merge_self]
  simp [upsertMerge]

theorem goodRow_insert_self (it : ManifestItem) (ts : Int) :
    goodRow it ⟨it.guid, it.path, it.kind, it.mtime, it.size, it.hash, false, ts⟩ = true := by
  rcases hh : it.hash with _ | h
  · rcases hm : it.mtime with _ | m <;>
      simp [goodRow, changedWitness, optTruthy, hh, hm]
  · simp [goodRow, changedWitness, optTruthy, hh]

theorem upsert_manifest_good (db : Db) (it : ManifestItem) (ts : Int)
    (hg : ¬ it.guid = "") (hp : ¬ it.path = "") :
    ∃ r, lookupAsset (upsertAssetsOne db (manifestToUpsert it) ts).assets it.guid = some r ∧
      goodRow it r = true := by
  have hco := manifestToUpsert_coerce it
  have hne : ¬(it.guid = "" ∨ coercePath (manifestToUpsert it) = "") := by
    rw [hco.2.1]
    exact fun h => h.elim hg hp
  have h := upsertAssetsOne_lookup_self db (manifestToUpsert it) ts it.guid hco.1 hne
  rcases hl : lookupAsset db.assets it.guid with _ | r0 <;> rw [hl] at h
  · exact ⟨_, h, goodRow_insert_self it ts⟩
  · exact ⟨_, h, goodRow_merge_self r0 it ts⟩

theorem goodRow_scene_merge (r : AssetRow) (it : ManifestItem) (ts : Int)
    (h : goodRow it r = true) :
    goodRow it (upsertMerge r it.path (some "Scene") none none none ts) = true := by
  have hcw : changedWitness (upsertMerge r it.path (some "Scene") none none none ts) it
      = changedWitness r it := by
    simp [changedWitness, upsertMerge]
  simp only [goodRow, Bool.and_eq_true] at h
  simp only [goodRow, Bool.and_eq_true]
  refine ⟨⟨?_, ?_⟩, ?_⟩
  · simp [upsertMerge]
  · simp [upsertMerge]
  · rw [hcw]
    exact h.2

theorem lookupAsset_filter_of {l : List AssetRow} {p : AssetRow → Bool} {g : String}
    {r : AssetRow} (h : lookupAsset l g = some r) (hp : p r = true) :
    lookupAsset (l.filter p) g = some r := by
  induction l with
  | nil => simp [lookupAsset] at h
  | cons a l ih =>
    rw [lookupAsset] at h
    by_cases hag : a.guid = g
    · rw [List.find?_cons_of_pos _ (by simpa using hag)] at h
      have ha : a = r := Option.some.inj h
      subst ha
      rw [List.filter_cons, if_pos hp, lookupAsset,
        List.find?_cons_of_pos _ (by simpa using hag)]
    · rw [List.find?_cons_of_neg _ (by simpa using hag)] at h
      have ihh := ih h
      rw [List.filter_cons]
      by_cases hpa : p a = true
      · rw [if_pos hpa, lookupAsset, List.find?_cons_of_neg _ (by simpa using hag)]
        exact ihh
      · rw [if_neg hpa]
        exact ihh

theorem lookupAsset_filter_some {p : AssetRow → Bool} {g : String} {r : AssetRow} :
    ∀ {l : List AssetRow}, lookupAsset (l.filter p) g = some r →
      (l.map (fun r => r.guid)).Nodup → lookupAsset l g = some r := by
  intro l
  induction l with
  | nil => intro h _; simp [lookupAsset] at h
  | cons a l ih =>
    intro h hnd
    have hnd' : (l.map (fun r => r.guid)).Nodup := (List.nodup_cons.mp hnd).2
    have hag' : a.guid ∉ l.map (fun r => r.guid) := (List.nodup_cons.mp hnd).1
    rw [List.filter_cons] at h
    by_cases hag : a.guid = g
    · rw [lookupAsset, List.find?_cons_of_pos _ (by simpa using hag)]
      by_cases hpa : p a = true
      · rw [if_pos hpa, lookupAsset, List.find?_cons_of_pos _ (by simpa using hag)] at h
        exact h
      · rw [if_neg hpa] at h
        have hrg : r.guid = g := lookupAsset_guid h
        have hrl : r ∈ l := List.mem_of_mem_filter (List.mem_of_find?_eq_some h)
        exact absurd (List.mem_map.mpr ⟨r, hrl, hrg⟩) (hag ▸ hag')
    · rw [lookupAsset, List.find?_cons_of_neg _ (by simpa using hag)]
      by_cases hpa : p a = true
      · rw [if_pos hpa, lookupAsset, List.find?_cons_of_neg _ (by simpa using hag)] at h
        exact ih h hnd'
      · rw [if_neg hpa] at h
        exact ih h hnd'

theorem upsertPred_not_folder {live : List AssetRow} {x : ManifestItem}
    (h : upsertPred live x = true) : x.isFolder = false := by
  simp only [upsertPred, addedPred, movedPred, Bool.or_eq_true, Bool.and_eq_true] at h
  rcases h with ⟨h1, _⟩ | ⟨h1, _⟩ <;> simpa using h1

theorem modifiedPred_not_folder {live : List AssetRow} {x : ManifestItem}
    (h : modifiedPred live x = true) : x.isFolder = false := by
  simp only [modifiedPred, Bool.and_eq_true] at h
  simpa using h.1

theorem reindexPred_not_folder {live : List AssetRow} {x : ManifestItem}
    (h : reindexPred live x = true) : x.isFolder = false := by
  simp only [reindexPred, Bool.and_eq_true, Bool.or_eq_true] at h
  rcases h with ⟨(h1 | h1) | h1, _⟩
  · exact upsertPred_not_folder (show upsertPred live x = true by simp [upsertPred, h1])
  · exact upsertPred_not_folder (show upsertPred live x = true by simp [upsertPred, h1])
  · exact modifiedPred_not_folder h1

theorem upsertList_good (it : ManifestItem) (ts : Int)
    (hg : ¬ it.guid = "") (hp : ¬ it.path = "") :
    ∀ (l : List ManifestItem) (db : Db),
      (∀ x ∈ l, x.guid = it.guid → x = it) →
      ((∃ r, lookupAsset db.assets it.guid = some r ∧ goodRow it r = true) ∨ it ∈ l) →
      ∃ r, lookupAsset (upsertAssets db (l.map manifestToUpsert) ts).assets it.guid = some r ∧
        goodRow it r = true := by
  intro l
  induction l with
  | nil =>
    intro db _ hstart
    rcases hstart with h | h
    · exact h
    · cases h
  | cons x l ih =>
    intro db hsame hstart
    have hstep : upsertAssets db ((x :: l).map manifestToUpsert) ts =
        upsertAssets (upsertAssetsOne db (manifestToUpsert x) ts) (l.map manifestToUpsert) ts :=
      rfl
    rw [hstep]
    by_cases hxg : x.guid = it.guid
    · have hx : x = it := hsame x (List.mem_cons_self _ _) hxg
      subst hx
      exact ih _ (fun y hy => hsame y (List.mem_cons_of_mem _ hy))
        (Or.inl (upsert_manifest_good db x ts hg hp))
    · have hpres := upsertAssetsOne_lookup_other db (manifestToUpsert x) ts it.guid
        (fun g' hg' => by
          have h2 : some x.guid = some g' := hg'
          have h3 : x.guid = g' := Option.some.inj h2
          exact fun hc => hxg (h3.trans hc))
      refine ih _ (fun y hy => hsame y (List.mem_cons_of_mem _ hy)) ?_
      rcases hstart with ⟨r, hr, hgood⟩ | hmem
      · exact Or.inl ⟨r, by rw [hpres]; exact hr, hgood⟩
      · rcases List.mem_cons.mp hmem with heq | hmem'
        · exact absurd (by rw [heq] : x.guid = it.guid) hxg
        · exact Or.inr hmem'

theorem sceneFold_good (it : ManifestItem) (ts : Int) :
    ∀ (l : List ManifestItem) (db : Db),
      (∀ x ∈ l, x.guid = it.guid → x.path = it.path ∧ ¬ x.guid = "" ∧ ¬ x.path = "") →
      (∃ r, lookupAsset db.assets it.guid = some r ∧ goodRow it r = true) →
      ∃ r, lookupAsset (l.foldl (fun d sc => applySceneSaved d sc ts) db).assets it.guid
          = some r ∧ goodRow it r = true := by
  intro l
  induction l with
  | nil => intro db _ h; exact h
  | cons x l ih =>
    intro db hsame hstart
    simp only [List.foldl_cons]
    refine ih _ (fun y hy => hsame y (List.mem_cons_of_mem _ hy)) ?_
    obtain ⟨r, hr, hgood⟩ := hstart
    by_cases hxg : x.guid = it.guid
    · obtain ⟨hpath, hgne, hpne⟩ := hsame x (List.mem_cons_self _ _) hxg
      have hsk : ¬(x.guid = "" ∨
          coercePath ({ guid := some x.guid, path := some x.path,
                        kind := some "Scene" } : UpsertItem) = "") := by
        intro hc
        rcases hc with hc | hc
        · exact hgne hc
        · exact hpne hc
      have hr' : lookupAsset db.assets x.guid = some r := by rw [hxg]; exact hr
      have h := upsertAssetsOne_lookup_self db
        ({ guid := some x.guid, path := some x.path, kind := some "Scene" } : UpsertItem)
        ts x.guid rfl hsk
      rw [hr'] at h
      dsimp only at h
      refine ⟨upsertMerge r x.path (some "Scene") none none none ts, ?_, ?_⟩
      · rw [applySceneSaved_assets, ← hxg]
        exact h
      · have hgm := goodRow_scene_merge r it ts hgood
        rw [← hpath] at hgm
        exact hgm
    · have hpres := upsertAssetsOne_lookup_other db
        ({ guid := some x.guid, path := some x.path, kind := some "Scene" } : UpsertItem)
        ts it.guid (fun g' hg' => by
          have h2 : some x.guid = some g' := hg'
          have h3 : x.guid = g' := Option.some.inj h2
          exact fun hc => hxg (h3.trans hc))
      exact ⟨r, by rw [applySceneSaved_assets, hpres]; exact hr, hgood⟩

theorem pipeline_good (it : ManifestItem) (db1 : Db) (U scripts scenes : List ManifestItem)
    (t1 : Int) (hg : ¬ it.guid = "") (hp : ¬ it.path = "")
    (hsameU : ∀ x ∈ U, x.guid = it.guid → x = it)
    (hsameS : ∀ x ∈ scripts, x.guid = it.guid → x = it)
    (hsameSc : ∀ x ∈ scenes, x.guid = it.guid → x.path = it.path ∧ ¬ x.guid = "" ∧ ¬ x.path = "")
    (hstart : (∃ r, lookupAsset db1.assets it.guid = some r ∧ goodRow it r = true) ∨
      it ∈ U ∨ it ∈ scripts) :
    ∃ r, lookupAsset ((scenes.foldl (fun d sc => applySceneSaved d sc t1)
        (if scripts.isEmpty then upsertAssets db1 (U.map manifestToUpsert) t1
         else applyImportedBatch (upsertAssets db1 (U.map manifestToUpsert) t1)
           scripts t1))).assets it.guid = some r ∧
      goodRow it r = true := by
  refine sceneFold_good it t1 scenes _ hsameSc ?_
  by_cases hscr : scripts.isEmpty = true
  · rw [if_pos hscr]
    have hnil : scripts = [] := List.isEmpty_iff.mp hscr
    refine upsertList_good it t1 hg hp U db1 hsameU ?_
    rcases hstart with h | h | h
    · exact Or.inl h
    · exact Or.inr h
    · rw [hnil] at h
      cases h
  · rw [if_neg hscr]
    rw [applyImportedBatch_assets]
    refine upsertList_good it t1 hg hp scripts _ hsameS ?_
    rcases hstart with h | h | h
    · exact Or.inl (upsertList_good it t1 hg hp U db1 hsameU (Or.inl h))
    · exact Or.inl (upsertList_good it t1 hg hp U db1 hsameU (Or.inr h))
    · exact Or.inr h

theorem pipeline_live_sub (S : String → Prop) (db1 : Db) (U scripts scenes : List ManifestItem)
    (t1 : Int) (hU : ∀ x ∈ U, S x.guid) (hS : ∀ x ∈ scripts, S x.guid)
    (hSc : ∀ x ∈ scenes, S x.guid)
    (hdb1 : ∀ r ∈ db1.assets, r.deleted = false → S r.guid) :
    ∀ r ∈ (scenes.foldl (fun d sc => applySceneSaved d sc t1)
        (if scripts.isEmpty then upsertAssets db1 (U.map manifestToUpsert) t1
         else applyImportedBatch (upsertAssets db1 (U.map manifestToUpsert) t1)
           scripts t1)).assets,
      r.deleted = false → S r.guid := by
  have hUup : ∀ x ∈ U.map manifestToUpsert, ∀ g, coerceGuid x = some g → S g := by
    intro x hx g hg
    obtain ⟨y, hy, rfl⟩ := List.mem_map.mp hx
    have h2 : some y.guid = some g := hg
    exact Option.some.inj h2 ▸ hU y hy
  have hinv2 : ∀ r ∈ (upsertAssets db1 (U.map manifestToUpsert) t1).assets,
      r.deleted = false → S r.guid :=
    upsertAssets_live_sub S t1 _ db1 hUup hdb1
  refine sceneFold_live_sub S t1 scenes _ hSc ?_
  by_cases hscr : scripts.isEmpty = true
  · rw [if_pos hscr]
    exact hinv2
  · rw [if_neg hscr]
    intro r hr hd
    rw [applyImportedBatch_assets] at hr
    refine upsertAssets_live_sub S t1 (scripts.map manifestToUpsert) _ ?_ hinv2 r hr hd
    intro x hx g hg
    obtain ⟨y, hy, rfl⟩ := List.mem_map.mp hx
    have h2 : some y.guid = some g := hg
    exact Option.some.inj h2 ▸ hS y hy

theorem markDeleted_live_sub (db0 : Db) (seenL : List String) (t1 : Int)
    (S : String → Prop) (hseen : ∀ g ∈ seenL, S g) :
    ∀ r ∈ (markDeleted db0
        (((db0.assets.filter (fun r => !r.deleted)).filter
          (fun r => !(seenL.contains r.guid))).map (fun r => r.guid)) t1).assets,
      r.deleted = false → S r.guid := by
  intro r hr hd
  obtain ⟨hr0, hng⟩ := markDeleted_live t1 _ db0 r hr hd
  by_cases hc : seenL.contains r.guid = true
  · exact hseen _ (List.mem_of_elem_eq_true hc)
  · exfalso
    apply hng
    refine List.mem_map.mpr ⟨r, ?_, rfl⟩
    have hc' : seenL.contains r.guid = false := by simpa using hc
    refine List.mem_filter.mpr ⟨List.mem_filter.mpr ⟨hr0, ?_⟩, ?_⟩
    · simp [hd]
    · simp [hc']
      exact fun hm => hc (List.elem_eq_true_of_mem hm)

theorem unchanged_good_db1 (it : ManifestItem) (db0 : Db) (seenL : List String) (t1 : Int)
    (hdb : (db0.assets.map (fun r => r.guid)).Nodup)
    (hseen : it.guid ∈ seenL) (r0 : AssetRow)
    (hl : lookupAsset (db0.assets.filter (fun r => !r.deleted)) it.guid = some r0)
    (hgood : goodRow it r0 = true) :
    ∃ r, lookupAsset (markDeleted db0
        (((db0.assets.filter (fun r => !r.deleted)).filter
          (fun r => !(seenL.contains r.guid))).map (fun r => r.guid)) t1).assets it.guid
      = some r ∧ goodRow it r = true := by
  have hl0 : lookupAsset db0.assets it.guid = some r0 := lookupAsset_filter_some hl hdb
  have hnotin : it.guid ∉ ((db0.assets.filter (fun r => !r.deleted)).filter
      (fun r => !(seenL.contains r.guid))).map (fun r => r.guid) := by
    intro hmem
    obtain ⟨r1, hr1, hr1g⟩ := List.mem_map.mp hmem
    have h2 := (List.mem_filter.mp hr1).2
    rw [hr1g] at h2
    have hc : seenL.contains it.guid = true := List.elem_eq_true_of_mem hseen
    rw [hc] at h2
    simp at h2
  rw [lookupAsset_markDeleted t1 it.guid _ db0 hnotin, hl0]
  exact ⟨r0, rfl, hgood⟩

theorem reconcile_good_rows (db0 : Db) (items : List ManifestItem) (t1 : Int)
    (hdb : (db0.assets.map (fun r => r.guid)).Nodup)
    (hvalid : ∀ x ∈ items, x.isFolder = false → ¬ x.guid = "" ∧ ¬ x.path = "")
    (hnodup : ∀ x ∈ items, ∀ y ∈ items, x.isFolder = false → y.isFolder = false →
      x.guid = y.guid → x = y)
    (htex : ∀ x ∈ items, modifiedPred (db0.assets.filter (fun r => !r.deleted)) x = true →
      isTextual x.kind x.path = true) :
    ∀ it ∈ items, it.isFolder = false →
      ∃ r, lookupAsset (reconcile db0 items t1).db.assets it.guid = some r ∧
        goodRow it r = true := by
  intro it hit hnf
  obtain ⟨hgne, hpne⟩ := hvalid it hit hnf
  have hpass := pass1_eq (db0.assets.filter (fun r => !r.deleted)) items
  simp only [reconcile, hpass]
  refine pipeline_good it _ _ _ _ t1 hgne hpne ?_ ?_ ?_ ?_
  · intro x hx hxg
    have h1 := List.mem_filter.mp hx
    exact hnodup x h1.1 it hit (upsertPred_not_folder h1.2) hnf hxg
  · intro x hx hxg
    have h1 := List.mem_filter.mp hx
    have h2 := List.mem_filter.mp h1.1
    exact hnodup x h2.1 it hit (reindexPred_not_folder h2.2) hnf hxg
  · intro x hx hxg
    have h1 := List.mem_filter.mp hx
    have h2 := List.mem_filter.mp h1.1
    have hxe : x = it := hnodup x h2.1 it hit (reindexPred_not_folder h2.2) hnf hxg
    rw [hxe]
    exact ⟨rfl, hgne, hpne⟩
  · by_cases hup : upsertPred (db0.assets.filter (fun r => !r.deleted)) it = true
    · exact Or.inr (Or.inl (List.mem_filter.mpr ⟨hit, hup⟩))
    · by_cases hmod : modifiedPred (db0.assets.filter (fun r => !r.deleted)) it = true
      · have htexIt := htex it hit hmod
        have hre : reindexPred (db0.assets.filter (fun r => !r.deleted)) it = true := by
          simp [reindexPred, hmod, htexIt]
        exact Or.inr (Or.inr (List.mem_filter.mpr ⟨List.mem_filter.mpr ⟨hit, hre⟩, htexIt⟩))
      · rcases hlv : lookupAsset (db0.assets.filter (fun r => !r.deleted)) it.guid with _ | r0
        · exact absurd (by simp [upsertPred, addedPred, hnf, hlv] :
            upsertPred (db0.assets.filter (fun r => !r.deleted)) it = true) hup
        · by_cases hpp : r0.path = it.path
          · by_cases hcw : changedWitness r0 it = true
            · exact absurd (by simp [modifiedPred, hnf, hlv, hpp, hcw] :
                modifiedPred (db0.assets.filter (fun r => !r.deleted)) it = true) hmod
            · have hdel : r0.deleted = false := by
                have h3 := List.mem_filter.mp (List.mem_of_find?_eq_some hlv)
                simpa using h3.2
              have hcw' : changedWitness r0 it = false := by simpa using hcw
              have hgoodr : goodRow it r0 = true := by simp [goodRow, hpp, hdel, hcw']
              have hseenIt : it.guid ∈ (items.filter (fun x => !x.isFolder)).map
                  (fun x => x.guid) :=
                List.mem_map.mpr ⟨it, List.mem_filter.mpr ⟨hit, by simp [hnf]⟩, rfl⟩
              exact Or.inl (unchanged_good_db1 it db0 _ t1 hdb hseenIt r0 hlv hgoodr)
          · exact absurd (by simp [upsertPred, addedPred, movedPred, hnf, hlv, hpp] :
              upsertPred (db0.assets.filter (fun r => !r.deleted)) it = true) hup

theorem reconcile_live_guids (db0 : Db) (items : List ManifestItem) (t1 : Int) :
    ∀ r ∈ (reconcile db0 items t1).db.assets, r.deleted = false →
      r.guid ∈ (items.filter (fun x => !x.isFolder)).map (fun x => x.guid) := by
  have hpass := pass1_eq (db0.assets.filter (fun r => !r.deleted)) items
  simp only [reconcile, hpass]
  refine pipeline_live_sub _ _ _ _ _ t1 ?_ ?_ ?_ ?_
  · intro x hx
    have h1 := List.mem_filter.mp hx
    exact List.mem_map.mpr
      ⟨x, List.mem_filter.mpr ⟨h1.1, by simp [upsertPred_not_folder h1.2]⟩, rfl⟩
  · intro x hx
    have h1 := List.mem_filter.mp hx
    have h2 := List.mem_filter.mp h1.1
    exact List.mem_map.mpr
      ⟨x, List.mem_filter.mpr ⟨h2.1, by simp [reindexPred_not_folder h2.2]⟩, rfl⟩
  · intro x hx
    have h1 := List.mem_filter.mp hx
    have h2 := List.mem_filter.mp h1.1
    exact List.mem_map.mpr
      ⟨x, List.mem_filter.mpr ⟨h2.1, by simp [reindexPred_not_folder h2.2]⟩, rfl⟩
  · exact markDeleted_live_sub db0 _ t1 _ (fun g h => h)

/-- **C4 (amended).** Running `reconcile(M)` twice returns
`{added:0, deleted:0, moved:0, modified:0}` from the second call provided the
starting catalog has unique guids and the manifest is well-formed (non-folder
items have non-empty guid and path, unique per item) **and every item the
first run classifies as modified is textual**.  Without the last condition
the claim is false: the modified branch never upserts the catalog row, and
only the synthetic script-reindex path (`assets_imported`) carries the new
hash/mtime into the catalog — a modified non-textual item (or a modified
scene, whose `scene_saved` upsert carries no hash/mtime) stays different
from its row and is classified modified again by the second run. -/
theorem C4_reconcile_idempotent (db0 : Db) (items : List ManifestItem) (t1 t2 : Int)
    (hdb : (db0.assets.map (fun r => r.guid)).Nodup)
    (hvalid : ∀ x ∈ items, x.isFolder = false → ¬ x.guid = "" ∧ ¬ x.path = "")
    (hnodup : ∀ x ∈ items, ∀ y ∈ items, x.isFolder = false → y.isFolder = false →
      x.guid = y.guid → x = y)
    (htex : ∀ x ∈ items, modifiedPred (db0.assets.filter (fun r => !r.deleted)) x = true →
      isTextual x.kind x.path = true) :
    (reconcile (reconcile db0 items t1).db items t2).stats = ⟨0, 0, 0, 0⟩ := by
  have hgoodAll := reconcile_good_rows db0 items t1 hdb hvalid hnodup htex
  have hliveSub := reconcile_live_guids db0 items t1
  set db4 := (reconcile db0 items t1).db with hdb4
  have hpass2 := pass1_eq (db4.assets.filter (fun r => !r.deleted)) items
  simp only [reconcile, hpass2, ReconcileStats.mk.injEq]
  have hkey : ∀ x ∈ items, x.isFolder = false →
      ∃ r, lookupAsset (db4.assets.filter (fun r => !r.deleted)) x.guid = some r ∧
        r.path = x.path ∧ changedWitness r x = false := by
    intro x hx hnf
    obtain ⟨r, hlk, hgd⟩ := hgoodAll x hx hnf
    simp only [goodRow, Bool.and_eq_true] at hgd
    obtain ⟨⟨hpath, hdel⟩, hcw⟩ := hgd
    have hdel' : r.deleted = false := by simpa using hdel
    have hcw' : changedWitness r x = false := by simpa using hcw
    have hpath' : r.path = x.path := by simpa using hpath
    exact ⟨r, lookupAsset_filter_of hlk (by simp [hdel']), hpath', hcw'⟩
  refine ⟨?_, ?_, ?_, ?_⟩
  · rw [List.length_eq_zero, List.filter_eq_nil]
    intro x hx
    by_cases hnf : x.isFolder = true
    · simp [addedPred, hnf]
    · have hnf' : x.isFolder = false := by simpa using hnf
      obtain ⟨r, hlk2, _, _⟩ := hkey x hx hnf'
      simp [addedPred, hlk2]
  · rw [List.length_eq_zero, List.filter_eq_nil]
    intro r hr
    have h1 := List.mem_filter.mp hr
    have hd : r.deleted = false := by simpa using h1.2
    have hmemS := hliveSub r h1.1 hd
    have hc : ((items.filter (fun x => !x.isFolder)).map (fun x => x.guid)).contains
        r.guid = true := List.elem_eq_true_of_mem hmemS
    simp [hc]
    obtain ⟨x, hxmem, hxg⟩ := List.mem_map.mp hmemS
    have h2 := List.mem_filter.mp hxmem
    exact ⟨x, h2.1, by simpa using h2.2, hxg⟩
  · rw [List.length_eq_zero, List.filter_eq_nil]
    intro x hx
    by_cases hnf : x.isFolder = true
    · simp [movedPred, hnf]
    · have hnf' : x.isFolder = false := by simpa using hnf
      obtain ⟨r, hlk2, hpath, _⟩ := hkey x hx hnf'
      simp [movedPred, hlk2, hpath]
  · rw [List.length_eq_zero, List.filter_eq_nil]
    intro x hx
    by_cases hnf : x.isFolder = true
    · simp [modifiedPred, hnf]
    · have hnf' : x.isFolder = false := by simpa using hnf
      obtain ⟨r, hlk2, _, hcw⟩ := hkey x hx hnf'
      simp [modifiedPred, hlk2, hcw]

/-- C4 counterexample: a modified *non-textual* item (kind `Texture`, hash
changed from "A" to "B") is classified modified by the first run, but the
modified branch never writes the new hash to the catalog and the item is not
reindexed, so the *second* run still reports `modified = 1`, not 0. -/
theorem C4_reconcile_idempotent_counterexample :
    (reconcile (reconcile ⟨[⟨"g", "p", none, none, none, some "A", false, 0⟩], [], []⟩
        [{ guid := "g", path := "p", kind := some "Texture", hash := some "B" }] 1).db
       [{ guid := "g", path := "p", kind := some "Texture", hash := some "B" }] 2).stats.modified
      = 1 := by
  decide

/-- Witness for C4: a modified `.cs` script item is reindexed by the first
run, the synthetic `assets_imported` upsert carries the new hash into the
catalog, and the second run reports all-zero statistics. -/
theorem C4_reconcile_idempotent_witness :
    (reconcile (reconcile ⟨[⟨"g", "a.cs", none, none, none, some "A", false, 0⟩], [], []⟩
        [{ guid := "g", path := "a.cs", hash := some "B" }] 1).db
       [{ guid := "g", path := "a.cs", hash := some "B" }] 2).stats = ⟨0, 0, 0, 0⟩ :=
  C4_reconcile_idempotent ⟨[⟨"g", "a.cs", none, none, none, some "A", false, 0⟩], [], []⟩
    [{ guid := "g", path := "a.cs", hash := some "B" }] 1 2
    (by decide) (by decide) (by decide) (by decide)

end Movesia
